import Mathlib

/-!
Verification of the NodeForge graph editor's data model and its mutation
protocol, as a shallow embedding of the JavaScript sources.

Conventions of the embedding:
* JS id values are either strings or (non-negative) numbers; `JsId` models
  both, since the library mixes strict equality, loose equality and
  object-key coercion on ids.
* JS objects used as ordered string-keyed maps (modules, module data,
  port maps) are association lists in insertion order; property update
  keeps the position of an existing key and appends a fresh key, matching
  JS object semantics.
* Fallible code is modelled with `JsOutcome`; the `thrown` outcome stands
  for a thrown TypeError (for example a property access on `undefined`).
* The DOM is modelled only as far as the data protocol reads it back:
  the list of connection SVG elements (their five class names), in
  document order.  Node elements are present exactly for the nodes of the
  active module, which the operations below maintain.
* `JSON.parse(JSON.stringify(x))` on JSON-safe stored data is the
  identity, so export's deep copy is the identity on the model.
-/

namespace NodeForge

/-- A JavaScript id value: either a string or a number. -/
inductive JsId where
  | str : String → JsId
  | num : Nat → JsId
deriving DecidableEq

/-- Coercion of a JS value to an object property key. -/
def JsId.key : JsId → String
  | .str s => s
  | .num n => toString n

/-- The result of calling toString() on the id. -/
def JsId.toStr (i : JsId) : String := i.key

/-- JS strict equality between a stored string field and an id value:
`s === i` is true only when the id is itself a string and equal to it. -/
def JsId.seqStr (i : JsId) (s : String) : Bool :=
  match i with
  | .str t => s == t
  | .num _ => false

/-- Parses the longest signed decimal prefix of a string, as JS parseInt
does; none models NaN. -/
def jsParseInt (s : String) : Option Int :=
  let cs := s.toList
  let (sign, rest) : Int × List Char :=
    match cs with
    | c :: r => if c = '-' then (-1, r) else if c = '+' then (1, r) else (1, cs)
    | [] => (1, cs)
  let ds := rest.takeWhile Char.isDigit
  if ds.isEmpty then none
  else some (sign * (ds.foldl (fun acc c => acc * 10 + (c.toNat - 48)) 0 : Nat))

/-- JS loose equality between an object key (a string) and an id value:
a string compares by equality, a number after converting the key with
ToNumber (here: parseInt on an all-digit key suffices for decimal keys). -/
def jsLooseEq (k : String) (i : JsId) : Bool :=
  match i with
  | .str s => k == s
  | .num n =>
    match jsParseInt k with
    | some v => v == (n : Int) && k.toList.all Char.isDigit
    | none => false

/-- Strips the node DOM-id marker from a full id such as node-3; a string
without the marker is returned unchanged (utils/string.js extractNodeId;
the non-string branch never arises in the modelled call sites). -/
def extractNodeId (fullId : String) : String :=
  if fullId.toList.take 5 = ("node-").toList then String.mk (fullId.toList.drop 5)
  else fullId

/-- Builds the DOM id of a node element from its bare id. -/
def buildNodeId (id : String) : String := "node-" ++ id

/-- Outcome of a JS call: a value, or a thrown exception. -/
inductive JsOutcome (α : Type) where
  | ok : α → JsOutcome α
  | thrown : JsOutcome α
deriving DecidableEq

instance : Monad JsOutcome where
  pure := .ok
  bind := fun x f => match x with | .ok a => f a | .thrown => .thrown

/-- Maps over a non-thrown outcome. -/
def JsOutcome.map (f : α → β) : JsOutcome α → JsOutcome β
  | .ok a => .ok (f a)
  | .thrown => .thrown

/-- Lifts a property lookup: an absent property that is then dereferenced
throws a TypeError. -/
def outc : Option α → JsOutcome α
  | some a => .ok a
  | none => .thrown

/-- Reads a property of a JS object modelled as an association list. -/
def getKey : List (String × α) → String → Option α
  | [], _ => none
  | (k', v) :: rest, k => if k' == k then some v else getKey rest k

/-- Writes a property: updating an existing key keeps its position,
a fresh key is appended, as JS object insertion order does. -/
def setKey : List (String × α) → String → α → List (String × α)
  | [], k, v => [(k, v)]
  | (k', v') :: rest, k, v =>
    if k' == k then (k, v) :: rest else (k', v') :: setKey rest k v

/-- Deletes a property (the JS delete operator); other keys keep order. -/
def delKey : List (String × α) → String → List (String × α)
  | [], _ => []
  | (k', v') :: rest, k => if k' == k then rest else (k', v') :: delKey rest k

/-- A reroute bend point stored on an output-side connection record. -/
structure RePoint where
  pos_x : Int
  pos_y : Int
deriving DecidableEq

/-- An output-side connection record: the peer (input) node id, the peer
input-port name (stored under the field name output), and the optional
ordered reroute point list. -/
structure OutConn where
  node : String
  output : String
  points : Option (List RePoint) := none
deriving DecidableEq

/-- An input-side connection record: the peer (output) node id and the
peer output-port name (stored under the field name input). -/
structure InConn where
  node : String
  input : String
deriving DecidableEq

/-- A node record of the store, as serialised by the library. -/
structure Node where
  id : JsId
  name : String
  dataPayload : String := ""
  className : String := ""
  html : String := ""
  typenode : Bool := false
  inputs : List (String × List InConn)
  outputs : List (String × List OutConn)
  pos_x : Int := 0
  pos_y : Int := 0
deriving DecidableEq

/-- The data of one module: node-id key to node record, insertion order. -/
abbrev ModuleData := List (String × Node)

/-- The whole store: module name to module data. -/
abbrev Store := List (String × ModuleData)

/-- A connection SVG element, identified by its class names
connection node_in_node-I node_out_node-O OC IC; fields hold the bare
id strings I and O and the port classes. -/
structure ConnElem where
  in_id : String
  out_id : String
  output_class : String
  input_class : String
deriving DecidableEq

/-- The events dispatched by the modelled operations. -/
inductive Event where
  | nodeCreated (id : JsId)
  | nodeRemoved (id : String)
  | connectionCreated (output_id input_id : JsId) (output_class input_class : String)
  | connectionRemoved (output_id input_id : JsId) (output_class input_class : String)
  | moduleChanged (name : String)
  | moduleCreated (name : String)
  | importEv
  | exportEv
deriving DecidableEq

/-- The editor session state: the store, the active module name, the
mounted connection elements, and the sequential node-id counter. -/
structure EditorState where
  store : Store
  module : String
  dom : List ConnElem
  nodeId : Nat
deriving DecidableEq

/-- The state right after construction: one empty Home module, counter 1. -/
def freshState : EditorState :=
  { store := [("Home", [])], module := "Home", dom := [], nodeId := 1 }

/-- Scans every module and every node key with loose equality, keeping the
last match, and returns the owning module name, or none for the JS
undefined return value (StateManager.getModuleFromNodeId). -/
def getModuleFromNodeId (store : Store) (id : JsId) : Option String :=
  store.foldl
    (fun acc m => m.2.foldl (fun acc2 kv => if jsLooseEq kv.1 id then some m.1 else acc2) acc)
    none

/-- Resolves the module with getModuleFromNodeId and then reads
data of that module at the id key (StateManager.getNodeFromId); when the
id is absent from every module the module name is undefined and the data
access throws, which thrown models.  The deep copy is the identity here. -/
def getNodeFromId (store : Store) (id : JsId) : JsOutcome Node :=
  match getModuleFromNodeId store id with
  | none => .thrown
  | some m =>
    match getKey store m with
    | none => .thrown
    | some md => outc (getKey md id.key)

/-- Removes the first element satisfying the predicate; with no match the
last element is removed instead, which is the JS behaviour of
splice(findIndex(...), 1) when findIndex returns -1. -/
def spliceFindOrLast (p : α → Bool) (l : List α) : List α :=
  if l.any p then l.eraseP p else l.dropLast

/-- Removes the first element satisfying the predicate when present; the
JS pattern of splice guarded by an index > -1 check. -/
def eraseFirstP (p : α → Bool) (l : List α) : List α := l.eraseP p

/-- Removes the first DOM element matching the selector predicate when one
exists (querySelector followed by a null-guarded remove). -/
def removeFirst (p : α → Bool) (l : List α) : List α :=
  if l.any p then l.eraseP p else l

/-- Simulates an Array.prototype.forEach walk that splices each matching
element out of the array it is iterating, with the standard skip of the
element sliding into a removed slot; returns the final array and how many
elements were removed. -/
def forEachRemoveCount (p : α → Bool) (l : List α) : List α × Nat :=
  go l.length l 0 0
where
  go : Nat → List α → Nat → Nat → List α × Nat
  | 0, cur, _, cnt => (cur, cnt)
  | fuel+1, cur, i, cnt =>
    if h : i < cur.length then
      if p (cur.get ⟨i, h⟩) then go fuel (cur.eraseIdx i) (i+1) (cnt+1)
      else go fuel cur (i+1) cnt
    else (cur, cnt)

/-- Removes, n times, the first DOM element matching the predicate; a
missing element is a remove() call on null, hence thrown. -/
def domRemoveN (p : ConnElem → Bool) : Nat → List ConnElem → JsOutcome (List ConnElem)
  | 0, l => .ok l
  | n+1, l => if l.any p then domRemoveN p n (l.eraseP p) else .thrown

/-- Rewrites the connection list of one input port of one node; none when
the node or the port is absent (the JS access would throw). -/
def modifyIn (md : ModuleData) (x q : String) (f : List InConn → List InConn) :
    Option ModuleData := do
  let node ← getKey md x
  let conns ← getKey node.inputs q
  some (setKey md x { node with inputs := setKey node.inputs q (f conns) })

/-- Rewrites the connection list of one output port of one node. -/
def modifyOut (md : ModuleData) (x q : String) (f : List OutConn → List OutConn) :
    Option ModuleData := do
  let node ← getKey md x
  let conns ← getKey node.outputs q
  some (setKey md x { node with outputs := setKey node.outputs q (f conns) })

/-- Builds the port map input_1 .. input_n or output_1 .. output_n with
empty connection lists, as addNode does. -/
def buildPorts (pre : String) (n : Nat) : List (String × List α) :=
  (List.range n).map (fun x => (pre ++ toString (x+1), ([] : List α)))

/-- Creates a node in the active module with the next sequential id
(NodeManager.addNode, sequential-id mode; content mounting is
rendering-only and not part of the store).  Returns the new id. -/
def addNode (st : EditorState) (name : String) (num_in num_out : Nat)
    (pos_x pos_y : Int) (className dataPayload html : String) (typenode : Bool := false) :
    JsOutcome (EditorState × List Event × Nat) :=
  let newNodeId := st.nodeId
  let json : Node :=
    { id := .num newNodeId, name := name, dataPayload := dataPayload,
      className := className, html := html, typenode := typenode,
      inputs := buildPorts ("input_") num_in,
      outputs := buildPorts ("output_") num_out,
      pos_x := pos_x, pos_y := pos_y }
  match getKey st.store st.module with
  | none => .thrown
  | some md =>
    .ok ({ st with
             store := setKey st.store st.module (setKey md (JsId.num newNodeId).key json),
             nodeId := st.nodeId + 1 },
         [.nodeCreated (.num newNodeId)], newNodeId)

/-- Creates a connection (ConnectionManager.addConnection).  The module of
each endpoint is resolved with loose equality; with equal modules the
duplicate check walks the output list with strict equality against the
raw id argument, and on a miss both paired records are pushed with the
ids stringified; the SVG element is added only when the owning module is
the active one.  Returns the JS boolean result. -/
def addConnection (st : EditorState) (id_output id_input : JsId)
    (output_class input_class : String) :
    JsOutcome (EditorState × List Event × Bool) :=
  let m1 := getModuleFromNodeId st.store id_output
  let m2 := getModuleFromNodeId st.store id_input
  if m1 == m2 then do
    let dataNode ← getNodeFromId st.store id_output
    let conns ← outc (getKey dataNode.outputs output_class)
    let exist := conns.any (fun c => JsId.seqStr id_input c.node && c.output == input_class)
    if exist then
      .ok (st, [], false)
    else do
      let modName ← outc m1
      let md ← outc (getKey st.store modName)
      let md1 ← outc (modifyOut md id_output.key output_class
        (· ++ [{ node := id_input.toStr, output := input_class }]))
      let md2 ← outc (modifyIn md1 id_input.key input_class
        (· ++ [{ node := id_output.toStr, input := output_class }]))
      let dom' :=
        if st.module == modName then
          st.dom ++ [{ in_id := id_input.key, out_id := id_output.key,
                       output_class := output_class, input_class := input_class }]
        else st.dom
      .ok ({ st with store := setKey st.store modName md2, dom := dom' },
           [.connectionCreated id_output id_input output_class input_class], true)
  else
    .ok (st, [], false)

/-- Removes one specific connection
(ConnectionManager.removeSingleConnection): both paired records are
removed with strict-equality findIndex guarded by an index check, the
matching SVG element is removed when present, and the removed event is
dispatched whenever the two modules agree, even if nothing matched. -/
def removeSingleConnection (st : EditorState) (id_output id_input : JsId)
    (output_class input_class : String) :
    JsOutcome (EditorState × List Event) :=
  let m1 := getModuleFromNodeId st.store id_output
  let m2 := getModuleFromNodeId st.store id_input
  if m1 == m2 then do
    let modName ← outc m1
    let md ← outc (getKey st.store modName)
    let md1 ← outc (modifyOut md id_output.key output_class
      (eraseFirstP (fun c => JsId.seqStr id_input c.node && c.output == input_class)))
    let md2 ← outc (modifyIn md1 id_input.key input_class
      (eraseFirstP (fun c => JsId.seqStr id_output c.node && c.input == output_class)))
    let dom' := removeFirst (fun e =>
      e.in_id == id_input.key && e.out_id == id_output.key &&
      e.output_class == output_class && e.input_class == input_class) st.dom
    .ok ({ st with store := setKey st.store modName md2, dom := dom' },
         [.connectionRemoved id_output id_input output_class input_class])
  else
    .ok (st, [])

/-- The input-side predicate used by removeConnectionNodeId for an SVG
element: the record at the element's input node that names the element's
output node and output class. -/
def inPredOut (e : ConnElem) (c : InConn) : Bool :=
  c.node == e.out_id && c.input == e.output_class

/-- The output-side predicate used by removeConnectionNodeId for an SVG
element: the record at the element's output node that names the element's
input node and input class. -/
def outPredOut (e : ConnElem) (c : OutConn) : Bool :=
  c.node == e.in_id && c.output == e.input_class

/-- One iteration of the first loop of removeConnectionNodeId: for an
element with this node on the output side, splice the paired record out of
the input node's list, then out of the output node's list, both against
the active module's data. -/
def rmStepOut (md : ModuleData) (e : ConnElem) : Option ModuleData := do
  let md1 ← modifyIn md e.in_id e.input_class (spliceFindOrLast (inPredOut e))
  modifyOut md1 e.out_id e.output_class (spliceFindOrLast (outPredOut e))

/-- One iteration of the second loop of removeConnectionNodeId: output
list first, then input list. -/
def rmStepIn (md : ModuleData) (e : ConnElem) : Option ModuleData := do
  let md1 ← modifyOut md e.out_id e.output_class (spliceFindOrLast (outPredOut e))
  modifyIn md1 e.in_id e.input_class (spliceFindOrLast (inPredOut e))

/-- Applies a per-element module-data step through the store at the active
module name, as each loop iteration's nodeforgeData[module] access does. -/
def stepStore (modName : String) (f : ModuleData → ConnElem → Option ModuleData)
    (store : Store) (e : ConnElem) : Option Store := do
  let md ← getKey store modName
  let md' ← f md e
  some (setKey store modName md')

/-- Removes every connection whose SVG element carries this node id on
either side (ConnectionManager.removeConnectionNodeId): both captured
element lists are walked from the end, each iteration splices the two
paired records out of the active module's data, removes the element and
dispatches a removed event. -/
def removeConnectionNodeId (st : EditorState) (id : JsId) :
    JsOutcome (EditorState × List Event) :=
  let pOut := fun (e : ConnElem) => e.out_id == id.key
  let pIn := fun (e : ConnElem) => e.in_id == id.key
  let elemsOut := st.dom.filter pOut
  let elemsIn := st.dom.filter pIn
  match elemsOut.reverse.foldlM (stepStore st.module rmStepOut) st.store with
  | none => .thrown
  | some store1 =>
    match elemsIn.reverse.foldlM (stepStore st.module rmStepIn) store1 with
    | none => .thrown
    | some store2 =>
      .ok ({ st with store := store2,
                     dom := st.dom.filter (fun e => !(pOut e) && !(pIn e)) },
           (elemsOut.reverse ++ elemsIn.reverse).map (fun e =>
             .connectionRemoved (.str e.out_id) (.str e.in_id) e.output_class e.input_class))

/-- Removes an input port and its connections
(NodeManager.removeNodeInput): every record of the port is walked; for
each, the peer node's output list is walked with a forEach that splices
entries whose node field is strictly equal to the raw id argument, removing
the matching SVG element and dispatching an event per splice; finally the
port entry is deleted and the port element removed from the node element. -/
def removeNodeInput (st : EditorState) (id : JsId) (input_class : String) :
    JsOutcome (EditorState × List Event) := do
  let moduleName ← outc (getModuleFromNodeId st.store id)
  let md0 ← outc (getKey st.store moduleName)
  let infoNode ← outc (getKey md0 id.key)
  let conns ← outc (getKey infoNode.inputs input_class)
  let res ← conns.foldlM (fun (acc : Store × List ConnElem × List Event) item => do
      let (store, dom, evs) := acc
      let id_output := item.node
      let output_class := item.input
      let md ← outc (getKey store moduleName)
      let targetNode ← outc (getKey md id_output)
      let tconns ← outc (getKey targetNode.outputs output_class)
      let pr := fun (c : OutConn) => JsId.seqStr id c.node && c.output == input_class
      let (tconns', cnt) := forEachRemoveCount pr tconns
      let md' ← outc (modifyOut md id_output output_class (fun _ => tconns'))
      let dom' ← domRemoveN (fun e =>
        e.in_id == id.key && e.out_id == id_output &&
        e.output_class == output_class && e.input_class == input_class) cnt dom
      pure (setKey store moduleName md', dom',
        evs ++ List.replicate cnt
          (Event.connectionRemoved (.str id_output) id output_class input_class)))
    (st.store, st.dom, ([] : List Event))
  let (store1, dom1, evs) := res
  let md1 ← outc (getKey store1 moduleName)
  let node1 ← outc (getKey md1 id.key)
  let store2 := setKey store1 moduleName
    (setKey md1 id.key { node1 with inputs := delKey node1.inputs input_class })
  let activeMd ← outc (getKey store2 st.module)
  let _ ← outc (getKey activeMd id.key)
  pure ({ st with store := store2, dom := dom1 }, evs)

/-- Removes an output port and its connections
(NodeManager.removeNodeOutput), mirror image of removeNodeInput. -/
def removeNodeOutput (st : EditorState) (id : JsId) (output_class : String) :
    JsOutcome (EditorState × List Event) := do
  let moduleName ← outc (getModuleFromNodeId st.store id)
  let md0 ← outc (getKey st.store moduleName)
  let infoNode ← outc (getKey md0 id.key)
  let conns ← outc (getKey infoNode.outputs output_class)
  let res ← conns.foldlM (fun (acc : Store × List ConnElem × List Event) item => do
      let (store, dom, evs) := acc
      let id_input := item.node
      let input_class := item.output
      let md ← outc (getKey store moduleName)
      let targetNode ← outc (getKey md id_input)
      let tconns ← outc (getKey targetNode.inputs input_class)
      let pr := fun (c : InConn) => JsId.seqStr id c.node && c.input == output_class
      let (tconns', cnt) := forEachRemoveCount pr tconns
      let md' ← outc (modifyIn md id_input input_class (fun _ => tconns'))
      let dom' ← domRemoveN (fun e =>
        e.in_id == id_input && e.out_id == id.key &&
        e.output_class == output_class && e.input_class == input_class) cnt dom
      pure (setKey store moduleName md', dom',
        evs ++ List.replicate cnt
          (Event.connectionRemoved id (.str id_input) output_class input_class)))
    (st.store, st.dom, ([] : List Event))
  let (store1, dom1, evs) := res
  let md1 ← outc (getKey store1 moduleName)
  let node1 ← outc (getKey md1 id.key)
  let store2 := setKey store1 moduleName
    (setKey md1 id.key { node1 with outputs := delKey node1.outputs output_class })
  let activeMd ← outc (getKey store2 st.module)
  let _ ← outc (getKey activeMd id.key)
  pure ({ st with store := store2, dom := dom1 }, evs)

/-- Appends the next-numbered input port (NodeManager.addNodeInput).  For
a node named telegram the branch reassigns a const binding, which throws a
TypeError at runtime before anything is mutated; the DOM append requires
the node element, present only for nodes of the active module. -/
def addNodeInput (st : EditorState) (id : JsId) :
    JsOutcome (EditorState × List Event) := do
  let moduleName ← outc (getModuleFromNodeId st.store id)
  let md ← outc (getKey st.store moduleName)
  let infoNode ← outc (getKey md id.key)
  let numInputs := infoNode.inputs.length
  if infoNode.name == "telegram" then .thrown
  else do
    let input_class := "input_" ++ toString (numInputs + 1)
    let activeMd ← outc (getKey st.store st.module)
    let _ ← outc (getKey activeMd id.key)
    let node' := { infoNode with inputs := setKey infoNode.inputs input_class [] }
    pure ({ st with store := setKey st.store moduleName (setKey md id.key node') }, [])

/-- Appends the next-numbered output port (NodeManager.addNodeOutput),
with the same telegram const-reassignment throw. -/
def addNodeOutput (st : EditorState) (id : JsId) :
    JsOutcome (EditorState × List Event) := do
  let moduleName ← outc (getModuleFromNodeId st.store id)
  let md ← outc (getKey st.store moduleName)
  let infoNode ← outc (getKey md id.key)
  let numOutputs := infoNode.outputs.length
  if infoNode.name == "telegram" then .thrown
  else do
    let output_class := "output_" ++ toString (numOutputs + 1)
    let activeMd ← outc (getKey st.store st.module)
    let _ ← outc (getKey activeMd id.key)
    let node' := { infoNode with outputs := setKey infoNode.outputs output_class [] }
    pure ({ st with store := setKey st.store moduleName (setKey md id.key node') }, [])

/-- Deletes a node (NodeManager.removeNodeId): the bare id is extracted,
all its connections are removed through removeConnectionNodeId first, the
node element is removed (null-guarded), the data record is deleted from
the module resolved by loose lookup, and nodeRemoved is dispatched last. -/
def removeNodeId (st : EditorState) (id : String) :
    JsOutcome (EditorState × List Event) :=
  let nodeId := extractNodeId id
  let mod? := getModuleFromNodeId st.store (.str nodeId)
  match removeConnectionNodeId st (.str nodeId) with
  | .thrown => .thrown
  | .ok (st1, evs) =>
    match mod? with
    | none => .thrown
    | some moduleName =>
      match getKey st1.store moduleName with
      | none => .thrown
      | some md =>
        .ok ({ st1 with store := setKey st1.store moduleName (delKey md nodeId) },
             evs ++ [.nodeRemoved nodeId])

/-- Resets the store to a single empty Home module and empties the canvas
(ModuleManager.clear); the active-module field is left untouched. -/
def clearModel (st : EditorState) : EditorState :=
  { st with store := [("Home", [])], dom := [] }

/-- Recomputes the node-id counter on load: starting from 1, every key of
every module whose parseInt value reaches the running value bumps it to
that value plus one. -/
def loadCounter (store : Store) : Int :=
  store.foldl
    (fun num m => m.2.foldl
      (fun n kv =>
        match jsParseInt kv.1 with
        | some v => if v ≥ n then v + 1 else n
        | none => n)
      num)
    1

/-- Rebuilds the connection SVG elements of the active module during load:
addNodeImport creates, for every input-side record of every node, an
element classed with the node's own id on the input side and the record's
peer id and port on the output side. -/
def loadDom (md : ModuleData) : List ConnElem :=
  md.flatMap (fun kv =>
    kv.2.inputs.flatMap (fun qc =>
      qc.2.map (fun c =>
        { in_id := kv.2.id.key, out_id := c.node,
          output_class := c.input, input_class := qc.1 })))

/-- The sequentially renumbered output div class names addNodeImport
renders for a node: output_1 .. output_n for n stored output ports,
regardless of the stored port names. -/
def seqOutputNames (n : Node) : List String :=
  (List.range n.outputs.length).map (fun x => "output_" ++ toString (x+1))

/-- One updateConnectionNodes visit of a connection element during load:
the element is repositioned from the bounding boxes of the peer nodes'
port divs, resolved by node id and port class.  A peer node element
missing from the canvas or a port div missing from the node element makes
the render helper throw a TypeError; output divs carry the renumbered
sequential names, input divs the stored port names. -/
def updateConnOk (md : ModuleData) (e : ConnElem) : Bool :=
  (match getKey md e.out_id with
   | none => false
   | some nOut => (seqOutputNames nOut).any (fun s => s == e.output_class)) &&
  (match getKey md e.in_id with
   | none => false
   | some nIn => nIn.inputs.any (fun qc => qc.1 == e.input_class))

/-- Replaces the whole editor state with a data snapshot
(NodeForge.import): clear, deep-copy the snapshot into the store, then
load, which rebuilds the canvas of the still-active module, walks every
rebuilt connection element with updateConnectionNodes — throwing a
TypeError when a peer node element or port div cannot be resolved — and
recomputes the id counter; the import event fires only when notifi is
set.  A load with the active module absent from the snapshot throws. -/
def importModel (st : EditorState) (data : Store) (notifi : Bool) :
    JsOutcome (EditorState × List Event) := do
  let st1 := clearModel st
  let st2 := { st1 with store := data }
  let md ← outc (getKey data st2.module)
  if (loadDom md).all (updateConnOk md) then
    pure ({ st2 with dom := loadDom md, nodeId := (loadCounter data).toNat },
          if notifi then [Event.importEv] else [])
  else .thrown

/-- Returns a deep copy of the store and fires the export event
(NodeForge.export); the deep copy is the identity on the model. -/
def exportModel (st : EditorState) : Store × List Event :=
  (st.store, [Event.exportEv])

/-- Switches the active module (ModuleManager.changeModule).  The first
component records every dispatched event together with the value the
active-module field holds at dispatch time; the moduleChanged event is
dispatched before the field is updated, after which the canvas is cleared
and the store re-imported without notification. -/
def changeModule (st : EditorState) (name : String) :
    List (Event × String) × JsOutcome EditorState :=
  let observed := [(Event.moduleChanged name, st.module)]
  let st1 := { st with module := name, dom := [] }
  (observed, (importModel st1 st.store false).map (fun p => p.1))

/-- A child of a connection SVG element: a main-path or a reroute point
circle, in sibling order. -/
inductive SvgChild where
  | path
  | point
deriving DecidableEq

/-- Sibling layout of a connection element holding k reroute points in the
default rendering mode: the single main path followed by the point
circles in point-list order (createReroutePoint appends each point). -/
def defaultChildren (k : Nat) : List SvgChild :=
  SvgChild.path :: List.replicate k SvgChild.point

/-- Sibling layout in fix_curvature mode: k plus one main paths followed
by the k point circles in point-list order (createReroutePoint inserts
each new path after the existing paths and each point among the points). -/
def fixChildren (k : Nat) : List SvgChild :=
  List.replicate (k+1) SvgChild.path ++ List.replicate k SvgChild.point

/-- JS Array splice(i, 1) for a non-negative index: removes the element at
i when it exists, otherwise nothing. -/
def spliceOne (i : Nat) (l : List α) : List α :=
  if i < l.length then l.eraseIdx i else l

/-- The stored-data effect of RerouteManager.removeReroutePoint on the
owning connection's point list: the splice index is the clicked point's
position among all element children, reduced by the number of main paths
only in fix_curvature mode (where the clamped JS subtraction matches
truncated subtraction). -/
def removeReroutePointModel (fix : Bool) (children : List SvgChild) (eleIdx : Nat)
    (pts : List RePoint) : List RePoint :=
  let npp := eleIdx
  if fix then
    let numberMainPath := children.countP (· == SvgChild.path)
    spliceOne (npp - numberMainPath) pts
  else
    spliceOne npp pts

/-- All output-side records of a module, as tuples of output node key,
output port, input node id, input port. -/
def outPairs (md : ModuleData) : List (String × String × String × String) :=
  md.flatMap (fun an =>
    an.2.outputs.flatMap (fun pc =>
      pc.2.map (fun c => (an.1, pc.1, c.node, c.output))))

/-- All input-side records of a module, as tuples of output node id,
output port, input node key, input port. -/
def inPairs (md : ModuleData) : List (String × String × String × String) :=
  md.flatMap (fun bn =>
    bn.2.inputs.flatMap (fun qc =>
      qc.2.map (fun c => (c.node, c.input, bn.1, qc.1))))

/-- A connection tuple: output node, output port, input node, input port. -/
abbrev Tup := String × String × String × String

/-- The class tuple of a connection SVG element, in the same orientation
as outPairs. -/
def tupOf (e : ConnElem) : Tup :=
  (e.out_id, e.output_class, e.in_id, e.input_class)

/-- The class tuples of all connection SVG elements, in document order. -/
def domTuples (dom : List ConnElem) : List Tup :=
  dom.map tupOf

/-- Occurrences of one tuple in a tuple list. -/
def tupCount (l : List Tup) (t : Tup) : Nat :=
  l.countP (fun t' => decide (t' = t))

/-- The input-port names of one node, when the node exists. -/
def portsIn (md : ModuleData) (x : String) : Option (List String) :=
  (getKey md x).map (fun n => n.inputs.map Prod.fst)

/-- The output-port names of one node, when the node exists. -/
def portsOut (md : ModuleData) (x : String) : Option (List String) :=
  (getKey md x).map (fun n => n.outputs.map Prod.fst)

/-- Total number of output-side records of one node. -/
def outDegree (md : ModuleData) (k : String) : Nat :=
  match getKey md k with
  | none => 0
  | some n => (n.outputs.map (fun pc => pc.2.length)).sum

/-- Total number of input-side records of one node. -/
def inDegree (md : ModuleData) (k : String) : Nat :=
  match getKey md k with
  | none => 0
  | some n => (n.inputs.map (fun pc => pc.2.length)).sum

/-- Well-formedness of the active module's data together with its mounted
connection elements: unique node keys and port names, the duplicated
connection representation in pairing correspondence (as multisets), the
SVG elements in bijection with the output-side records, no duplicate
connection (same endpoints and ports twice), and no self-loop, which the
specification's interaction rules exclude. -/
def Wf (md : ModuleData) (dom : List ConnElem) : Prop :=
  (md.map Prod.fst).Nodup ∧
  (∀ kv ∈ md, (kv.2.inputs.map Prod.fst).Nodup) ∧
  (∀ kv ∈ md, (kv.2.outputs.map Prod.fst).Nodup) ∧
  List.Perm (outPairs md) (inPairs md) ∧
  List.Perm (domTuples dom) (outPairs md) ∧
  (outPairs md).Nodup ∧
  (∀ t ∈ outPairs md, t.1 ≠ t.2.2.1)

/-- The pairing property claimed by the specification, for one module:
every output-side record naming a node of the module is matched by an
input-side record at that node and port, and conversely.  Ports are
quantified over all names, so a record pointing at a deleted port has no
match. -/
def pairingHolds (md : ModuleData) : Bool :=
  (md.all (fun an => an.2.outputs.all (fun pc => pc.2.all (fun c =>
    md.all (fun bn => !(bn.1 == c.node) ||
      (((getKey bn.2.inputs c.output).getD []).any (fun c' =>
        c'.node == an.1 && c'.input == pc.1))))))) &&
  (md.all (fun bn => bn.2.inputs.all (fun qc => qc.2.all (fun c =>
    md.all (fun an => !(an.1 == c.node) ||
      (((getKey an.2.outputs c.input).getD []).any (fun c' =>
        c'.node == bn.1 && c'.output == qc.1)))))))

/-- The connection list of one input port, empty when node or port is
absent. -/
def inList (md : ModuleData) (x q : String) : List InConn :=
  match getKey md x with
  | none => []
  | some n => (getKey n.inputs q).getD []

/-- The connection list of one output port, empty when node or port is
absent. -/
def outList (md : ModuleData) (x q : String) : List OutConn :=
  match getKey md x with
  | none => []
  | some n => (getKey n.outputs q).getD []

/-- The node and the input port both exist. -/
def hasInPort (md : ModuleData) (x q : String) : Prop :=
  ∃ n, getKey md x = some n ∧ (getKey n.inputs q).isSome

/-- The node and the output port both exist. -/
def hasOutPort (md : ModuleData) (x q : String) : Prop :=
  ∃ n, getKey md x = some n ∧ (getKey n.outputs q).isSome

/-- One elementary splice of the removeConnectionNodeId loops: the
input-side or the output-side half of the treatment of one SVG element. -/
inductive EAct where
  | ain (e : ConnElem)
  | aout (e : ConnElem)

/-- Runs one elementary splice against the module data. -/
def runEAct (md : ModuleData) : EAct → Option ModuleData
  | .ain e => modifyIn md e.in_id e.input_class (spliceFindOrLast (inPredOut e))
  | .aout e => modifyOut md e.out_id e.output_class (spliceFindOrLast (outPredOut e))

/-- Runs a sequence of elementary splices. -/
def runEActs (md : ModuleData) (acts : List EAct) : Option ModuleData :=
  acts.foldlM runEAct md

/-- How many records of the targeted list match the splice's predicate. -/
def actCount (md : ModuleData) : EAct → Nat
  | .ain e => (inList md e.in_id e.input_class).countP (inPredOut e)
  | .aout e => (outList md e.out_id e.output_class).countP (outPredOut e)

/-- The targeted node and port exist, so the splice's property accesses
do not throw. -/
def actOk (md : ModuleData) : EAct → Prop
  | .ain e => hasInPort md e.in_id e.input_class
  | .aout e => hasOutPort md e.out_id e.output_class

/-- Whether the splice targets the given input-port list. -/
def EAct.touchesIn : EAct → String → String → Prop
  | .ain e, x, q => e.in_id = x ∧ e.input_class = q
  | .aout _, _, _ => False

/-- Whether the splice targets the given output-port list. -/
def EAct.touchesOut : EAct → String → String → Prop
  | .aout e, x, q => e.out_id = x ∧ e.output_class = q
  | .ain _, _, _ => False

/-- Non-interference of an earlier splice with a later one: when both
target the same list, no record matches both predicates. -/
def EActIndep : EAct → EAct → Prop
  | .ain e, .ain e' => (e.in_id = e'.in_id ∧ e.input_class = e'.input_class) →
      ∀ c, inPredOut e c = true → inPredOut e' c = false
  | .aout e, .aout e' => (e.out_id = e'.out_id ∧ e.output_class = e'.output_class) →
      ∀ c, outPredOut e c = true → outPredOut e' c = false
  | _, _ => True

/-- The elementary splices of one first-loop iteration, in order. -/
def outLoopActs (e : ConnElem) : List EAct := [.ain e, .aout e]

/-- The elementary splices of one second-loop iteration, in order. -/
def inLoopActs (e : ConnElem) : List EAct := [.aout e, .ain e]

/-- The elementary splices performed by removeConnectionNodeId, in
execution order: the first loop walks the output-side elements from the
end, splicing input list then output list; the second loop walks the
input-side elements from the end, splicing output list then input list. -/
def casActs (elemsOut elemsIn : List ConnElem) : List EAct :=
  elemsOut.reverse.flatMap outLoopActs ++ elemsIn.reverse.flatMap inLoopActs

/-- Node parameters for a createNode call, used to quantify over arbitrary
creation sequences. -/
structure NodeParams where
  name : String := ""
  num_in : Nat := 0
  num_out : Nat := 0
  pos_x : Int := 0
  pos_y : Int := 0
  className : String := ""
  dataPayload : String := ""
  html : String := ""
  typenode : Bool := false

/-- addNode applied to a parameter record. -/
def addNodeP (st : EditorState) (p : NodeParams) : JsOutcome (EditorState × List Event × Nat) :=
  addNode st p.name p.num_in p.num_out p.pos_x p.pos_y p.className p.dataPayload p.html p.typenode

/-- Creates one node per parameter record, collecting the returned ids. -/
def addMany (st : EditorState) : List NodeParams → JsOutcome (EditorState × List Nat)
  | [] => .ok (st, [])
  | p :: ps => do
    let (st1, _, id) ← addNodeP st p
    let (st2, ids) ← addMany st1 ps
    pure (st2, id :: ids)

/-- Every node key of every module of a store. -/
def allIds (store : Store) : List String :=
  store.flatMap (fun m => m.2.map Prod.fst)

/-- A session driving the claimed scenario of the duplicate check with the
numeric ids addNode returns: two nodes, then the same addConnection call
twice; the result collects both boolean returns and the final length of
the source node's output connection list. -/
def dupRun : JsOutcome (Bool × Bool × Nat) := do
  let (st1, _, _) ← addNode freshState ("a") 0 1 0 0 ("") ("") ("") false
  let (st2, _, _) ← addNode st1 ("b") 1 0 200 0 ("") ("") ("") false
  let (st3, _, r1) ← addConnection st2 (.num 1) (.num 2) ("output_1") ("input_1")
  let (st4, _, r2) ← addConnection st3 (.num 1) (.num 2) ("output_1") ("input_1")
  let md ← outc (getKey st4.store ("Home"))
  let n1 ← outc (getKey md ("1"))
  let conns ← outc (getKey n1.outputs ("output_1"))
  pure (r1, r2, conns.length)

/-- A session driving the pairing counterexample with the numeric ids
addNode returns: two connected nodes, then removeNodeInput on the target
with its numeric id; the result records whether addConnection succeeded
and whether the pairing biconditional still holds afterwards. -/
def pairingRun : JsOutcome (Bool × Bool) := do
  let (st1, _, _) ← addNode freshState ("a") 0 1 0 0 ("") ("") ("") false
  let (st2, _, _) ← addNode st1 ("b") 1 0 200 0 ("") ("") ("") false
  let (st3, _, r1) ← addConnection st2 (.num 1) (.num 2) ("output_1") ("input_1")
  let (st4, _) ← removeNodeInput st3 (.num 2) ("input_1")
  let md ← outc (getKey st4.store ("Home"))
  pure (r1, pairingHolds md)

/-- A node named telegram with no inputs and one output, for the port
append claim. -/
def telegramNode : Node :=
  { id := .num 1, name := "telegram", inputs := [],
    outputs := [("output_1", [])] }

/-- A one-node state whose only node is named telegram. -/
def telegramState : EditorState :=
  { store := [("Home", [("1", telegramNode)])], module := "Home",
    dom := [], nodeId := 2 }

/-- A state whose active module is Work, for the clear frame claim. -/
def workState : EditorState :=
  { store := [("Home", []), ("Work", [("1", telegramNode)])], module := "Work",
    dom := [], nodeId := 2 }

/-- A connected two-node graph with reroute points, for the round-trip
claim. -/
def rtNode1 : Node :=
  { id := .num 1, name := "a", inputs := [],
    outputs := [("output_1",
      [{ node := "2", output := "input_1", points := some [⟨10, 20⟩, ⟨30, 40⟩] }])] }

/-- The target node of the round-trip graph. -/
def rtNode2 : Node :=
  { id := .num 2, name := "b",
    inputs := [("input_1", [{ node := "1", input := "output_1" }])], outputs := [] }

/-- A two-module state holding the round-trip graph. -/
def rtState : EditorState :=
  { store := [("Home", [("1", rtNode1), ("2", rtNode2)]), ("Side", [])],
    module := "Home", dom := [], nodeId := 3 }

/-- A one-node state for the port append claim: one input port holding a
connection record and one output port. -/
def c9Node : Node :=
  { id := .num 1, name := "x",
    inputs := [("input_1", [{ node := "9", input := "output_1" }])],
    outputs := [("output_1", [])] }

/-- The state around c9Node. -/
def c9State : EditorState :=
  { store := [("Home", [("1", c9Node)])], module := "Home", dom := [], nodeId := 2 }

/-- The node record addNode builds from creation parameters and the
sequential counter value. -/
def nodeOf (c : Nat) (p : NodeParams) : Node :=
  { id := .num c, name := p.name, dataPayload := p.dataPayload,
    className := p.className, html := p.html, typenode := p.typenode,
    inputs := buildPorts ("input_") p.num_in,
    outputs := buildPorts ("output_") p.num_out,
    pos_x := p.pos_x, pos_y := p.pos_y }

/-- The module data after a run of addNode calls starting at counter c. -/
def mdAfter (md : ModuleData) (c : Nat) : List NodeParams → ModuleData
  | [] => md
  | p :: ps => mdAfter (setKey md (toString c) (nodeOf c p)) (c+1) ps

/-- A two-node one-connection module for the cascade-delete witness:
node 1 output_1 feeds node 2 input_1. -/
def c5Md : ModuleData :=
  [("1", { id := .num 1, name := "a", inputs := [],
           outputs := [("output_1", [{ node := "2", output := "input_1" }])] }),
   ("2", { id := .num 2, name := "b",
           inputs := [("input_1", [{ node := "1", input := "output_1" }])],
           outputs := [] })]

/-- The mounted SVG element of the witness connection. -/
def c5Elem : ConnElem :=
  { in_id := "2", out_id := "1", output_class := "output_1", input_class := "input_1" }

/-- The witness session for the cascade delete. -/
def c5State : EditorState :=
  { store := [("Home", c5Md)], module := "Home", dom := [c5Elem], nodeId := 3 }

/-- The gap-scenario node before the gap: an empty port output_1 and a
connected port output_2. -/
def preGapNode1 : Node :=
  { id := .num 1, name := "a", inputs := [],
    outputs := [("output_1", []), ("output_2", [{ node := "2", output := "input_1" }])] }

/-- The peer node of the gap scenario. -/
def gapNode2 : Node :=
  { id := .num 2, name := "b",
    inputs := [("input_1", [{ node := "1", input := "output_2" }])], outputs := [] }

/-- The session before the gap is created: two nodes, one connection on
the port output_2, port output_1 still present and unconnected. -/
def preGapState : EditorState :=
  { store := [("Home", [("1", preGapNode1), ("2", gapNode2)])],
    module := "Home",
    dom := [{ in_id := "2", out_id := "1", output_class := "output_2",
              input_class := "input_1" }], nodeId := 3 }

/-- The module data after removeNodeOutput deletes the empty port
output_1: the surviving connected port keeps the name output_2, which no
longer matches any renumbered output div. -/
def gapMd : ModuleData :=
  [("1", { id := .num 1, name := "a", inputs := [],
           outputs := [("output_2", [{ node := "2", output := "input_1" }])] }),
   ("2", gapNode2)]

/-- The session holding the gapped graph. -/
def gapState : EditorState :=
  { store := [("Home", gapMd)], module := "Home",
    dom := [{ in_id := "2", out_id := "1", output_class := "output_2",
              input_class := "input_1" }], nodeId := 3 }

/-- A full session driving the counter-reuse counterexample: two nodes
created from a fresh editor, the highest deleted, then changeModule —
which re-imports the store and re-runs load, recomputing the counter —
and one more addNode.  The result pairs the deleted id with the id the
next addNode returns. -/
def c6ReuseRun : JsOutcome (Nat × Nat) := do
  let r1 ← addNode freshState ("a") 0 0 0 0 ("") ("") ("")
  let r2 ← addNode r1.1 ("b") 0 0 0 0 ("") ("") ("")
  let r3 ← removeNodeId r2.1 ("node-" ++ toString r2.2.2)
  let st4 ← (changeModule r3.1 ("Home")).2
  let r5 ← addNode st4 ("c") 0 0 0 0 ("") ("") ("")
  pure (r2.2.2, r5.2.2)

@[simp] theorem outc_some (a : α) : outc (some a) = JsOutcome.ok a := rfl

@[simp] theorem outc_none : outc (none : Option α) = (JsOutcome.thrown : JsOutcome α) := rfl

@[simp] theorem jsOutcome_bind_ok (a : α) (f : α → JsOutcome β) :
    (JsOutcome.ok a >>= f) = f a := rfl

@[simp] theorem jsOutcome_bind_thrown (f : α → JsOutcome β) :
    ((JsOutcome.thrown : JsOutcome α) >>= f) = (JsOutcome.thrown : JsOutcome β) := rfl

theorem getKey_setKey_self (m : List (String × α)) (k : String) (v : α) :
    getKey (setKey m k v) k = some v := by
  induction m with
  | nil => simp [getKey, setKey]
  | cons kv rest ih =>
    by_cases h : kv.1 = k
    · simp [setKey, getKey, h]
    · simp only [setKey, getKey]
      rw [if_neg (by simpa using h)]
      simpa [getKey, h] using ih

theorem getKey_setKey_ne (m : List (String × α)) (k k' : String) (v : α) (h : k' ≠ k) :
    getKey (setKey m k v) k' = getKey m k' := by
  induction m with
  | nil =>
    simp only [setKey, getKey]
    rw [if_neg (by simpa using fun he => h he.symm)]
  | cons kv rest ih =>
    by_cases hk : kv.1 = k
    · simp [setKey, getKey, hk, Ne.symm h]
    · simp only [setKey, getKey]
      rw [if_neg (by simpa using hk)]
      by_cases hk' : kv.1 = k'
      · simp [getKey, hk']
      · simp [getKey, hk', ih]

theorem setKey_eq_self (m : List (String × α)) (k : String) (v : α)
    (h : getKey m k = some v) : setKey m k v = m := by
  induction m with
  | nil => simp [getKey] at h
  | cons kv rest ih =>
    by_cases hk : kv.1 = k
    · simp only [getKey, hk, beq_self_eq_true, if_true, Option.some.injEq] at h
      cases kv
      simp_all [setKey]
    · simp only [getKey] at h
      rw [if_neg (by simpa using hk)] at h
      simp only [setKey]
      rw [if_neg (by simpa using hk)]
      rw [ih h]

theorem setKey_setKey (m : List (String × α)) (k : String) (v w : α) :
    setKey (setKey m k v) k w = setKey m k w := by
  induction m with
  | nil => simp [setKey]
  | cons kv rest ih =>
    by_cases hk : kv.1 = k
    · simp [setKey, hk]
    · simp only [setKey]
      rw [if_neg (by simpa using hk), if_neg (by simpa using hk)]
      simp only [setKey]
      rw [if_neg (by simpa using hk)]
      rw [ih]

theorem setKey_map_fst (m : List (String × α)) (k : String) (v : α)
    (h : (getKey m k).isSome) : (setKey m k v).map Prod.fst = m.map Prod.fst := by
  induction m with
  | nil => simp [getKey] at h
  | cons kv rest ih =>
    by_cases hk : kv.1 = k
    · simp [setKey, hk]
    · simp only [getKey] at h
      rw [if_neg (by simpa using hk)] at h
      simp only [setKey]
      rw [if_neg (by simpa using hk)]
      simp [ih h]

theorem getKey_isSome_of_setKey_ne (m : List (String × α)) (k k' : String) (v : α)
    (h : k' ≠ k) : (getKey (setKey m k v) k').isSome = (getKey m k').isSome := by
  rw [getKey_setKey_ne m k k' v h]

theorem getKey_mem (m : List (String × α)) (k : String) (v : α)
    (h : getKey m k = some v) : (k, v) ∈ m := by
  induction m with
  | nil => simp [getKey] at h
  | cons kv rest ih =>
    by_cases hk : kv.1 = k
    · simp only [getKey, hk, beq_self_eq_true, if_true, Option.some.injEq] at h
      cases kv
      simp_all
    · simp only [getKey] at h
      rw [if_neg (by simpa using hk)] at h
      exact List.mem_cons_of_mem _ (ih h)

theorem mem_getKey (m : List (String × α)) (k : String) (v : α)
    (hn : (m.map Prod.fst).Nodup) (h : (k, v) ∈ m) : getKey m k = some v := by
  induction m with
  | nil => simp at h
  | cons kv rest ih =>
    rcases List.mem_cons.mp h with h1 | h1
    · cases h1
      simp [getKey]
    · have hk : kv.1 ≠ k := by
        intro he
        have : k ∈ rest.map Prod.fst := List.mem_map.mpr ⟨(k, v), h1, rfl⟩
        simp only [List.map_cons, List.nodup_cons] at hn
        exact hn.1 (he ▸ this)
      simp only [getKey]
      rw [if_neg (by simpa using hk)]
      exact ih (by simpa using hn.of_cons) h1

theorem getKey_eq_none_iff (m : List (String × α)) (k : String) :
    getKey m k = none ↔ k ∉ m.map Prod.fst := by
  induction m with
  | nil => simp [getKey]
  | cons kv rest ih =>
    by_cases hk : kv.1 = k
    · simp [getKey, hk]
    · simp only [getKey]
      rw [if_neg (by simpa using hk)]
      simp [ih, Ne.symm hk]

theorem getKey_isSome_iff (m : List (String × α)) (k : String) :
    (getKey m k).isSome ↔ k ∈ m.map Prod.fst := by
  rw [← Option.ne_none_iff_isSome, Ne, getKey_eq_none_iff, not_not]

theorem delKey_sublist (m : List (String × α)) (k : String) :
    List.Sublist (delKey m k) m := by
  induction m with
  | nil => simp [delKey]
  | cons kv rest ih =>
    simp only [delKey]
    split
    · exact List.sublist_cons_self kv rest
    · exact ih.cons₂ kv

theorem getKey_delKey_ne (m : List (String × α)) (k k' : String) (h : k' ≠ k) :
    getKey (delKey m k) k' = getKey m k' := by
  induction m with
  | nil => simp [delKey]
  | cons kv rest ih =>
    by_cases hk : kv.1 = k
    · simp only [delKey, getKey]
      rw [if_pos (by simpa using hk)]
      rw [if_neg (by simp [hk, Ne.symm h])]
    · simp only [delKey, getKey]
      rw [if_neg (by simpa using hk)]
      by_cases hk' : kv.1 = k'
      · simp [getKey, hk']
      · simp [getKey, hk', ih]

theorem getKey_delKey_self (m : List (String × α)) (k : String)
    (hn : (m.map Prod.fst).Nodup) : getKey (delKey m k) k = none := by
  induction m with
  | nil => simp [delKey, getKey]
  | cons kv rest ih =>
    by_cases hk : kv.1 = k
    · simp only [delKey]
      rw [if_pos (by simpa using hk)]
      rw [getKey_eq_none_iff]
      simp only [List.map_cons, List.nodup_cons] at hn
      exact hk ▸ hn.1
    · simp only [delKey]
      rw [if_neg (by simpa using hk)]
      simp only [getKey]
      rw [if_neg (by simpa using hk)]
      exact ih (by simpa using hn.of_cons)

theorem spliceFindOrLast_sublist (p : α → Bool) (l : List α) :
    List.Sublist (spliceFindOrLast p l) l := by
  unfold spliceFindOrLast
  split
  · exact List.eraseP_sublist l
  · exact List.dropLast_sublist l

theorem spliceFindOrLast_of_countP_eq_one (p : α → Bool) (l : List α)
    (h : l.countP p = 1) :
    ∃ l₁ c l₂, l = l₁ ++ c :: l₂ ∧ p c = true ∧ (∀ b ∈ l₁, p b = false) ∧
      spliceFindOrLast p l = l₁ ++ l₂ := by
  have hpos : 0 < l.countP p := by omega
  obtain ⟨c, hc, hpc⟩ := List.countP_pos_iff.mp hpos
  have hany : l.any p := List.any_eq_true.mpr ⟨c, hc, hpc⟩
  obtain ⟨a, l₁, l₂, hl₁, hpa, hl, he⟩ := List.exists_of_eraseP hc hpc
  refine ⟨l₁, a, l₂, hl, hpa, ?_, ?_⟩
  · intro b hb
    exact Bool.eq_false_iff.mpr (hl₁ b hb)
  · rw [spliceFindOrLast, if_pos hany, he]

theorem countP_spliceFindOrLast_self (p : α → Bool) (l : List α)
    (h : l.countP p = 1) : (spliceFindOrLast p l).countP p = 0 := by
  obtain ⟨l₁, c, l₂, hl, hpc, hl₁, hres⟩ := spliceFindOrLast_of_countP_eq_one p l h
  rw [hres]
  have h0 : l₁.countP p = 0 := List.countP_eq_zero.mpr (fun b hb => by simp [hl₁ b hb])
  have hcnt : l.countP p = l₁.countP p + (l₂.countP p + 1) := by
    rw [hl, List.countP_append, List.countP_cons, hpc]
    simp
  rw [List.countP_append, h0]
  omega

theorem countP_spliceFindOrLast_other (p q : α → Bool) (l : List α)
    (h : l.countP p = 1) (hdisj : ∀ c, p c = true → q c = false) :
    (spliceFindOrLast p l).countP q = l.countP q := by
  obtain ⟨l₁, c, l₂, hl, hpc, _, hres⟩ := spliceFindOrLast_of_countP_eq_one p l h
  rw [hres, hl, List.countP_append, List.countP_append, List.countP_cons,
    hdisj c hpc]
  simp

theorem inList_eq (md : ModuleData) (x q : String) (n : Node) (cs : List InConn)
    (hn : getKey md x = some n) (hq : getKey n.inputs q = some cs) :
    inList md x q = cs := by
  simp [inList, hn, hq]

theorem outList_eq (md : ModuleData) (x q : String) (n : Node) (cs : List OutConn)
    (hn : getKey md x = some n) (hq : getKey n.outputs q = some cs) :
    outList md x q = cs := by
  simp [outList, hn, hq]

theorem getKey_setKey_cases (m : List (String × α)) (k k' : String) (v : α) :
    getKey (setKey m k v) k' = if k' = k then some v else getKey m k' := by
  by_cases h : k' = k
  · rw [if_pos h, h]
    exact getKey_setKey_self m k v
  · rw [if_neg h]
    exact getKey_setKey_ne m k k' v h

theorem modifyIn_spec (md : ModuleData) (x q : String) (f : List InConn → List InConn)
    (h : hasInPort md x q) :
    ∃ md', modifyIn md x q f = some md' ∧
      inList md' x q = f (inList md x q) ∧
      (∀ x' q', ¬(x' = x ∧ q' = q) → inList md' x' q' = inList md x' q') ∧
      (∀ x' q', outList md' x' q' = outList md x' q') ∧
      md'.map Prod.fst = md.map Prod.fst ∧
      (∀ x' q', hasInPort md' x' q' ↔ hasInPort md x' q') ∧
      (∀ x' q', hasOutPort md' x' q' ↔ hasOutPort md x' q') := by
  obtain ⟨n, hn, hq⟩ := h
  obtain ⟨cs, hcs⟩ := Option.isSome_iff_exists.mp hq
  refine ⟨setKey md x { n with inputs := setKey n.inputs q (f cs) }, ?_, ?_, ?_, ?_, ?_, ?_, ?_⟩
  · simp [modifyIn, hn, hcs]
  · rw [inList_eq md x q n cs hn hcs]
    refine inList_eq _ x q _ (f cs) (getKey_setKey_self md x _) ?_
    simpa using getKey_setKey_self n.inputs q (f cs)
  · intro x' q' hne
    rcases eq_or_ne x' x with hx | hx
    · subst hx
      have hq' : q' ≠ q := fun he => hne ⟨rfl, he⟩
      simp only [inList, getKey_setKey_self md x' _, hn]
      have : getKey (setKey n.inputs q (f cs)) q' = getKey n.inputs q' :=
        getKey_setKey_ne n.inputs q q' (f cs) hq'
      simpa using congrArg (fun o => Option.getD o ([] : List InConn)) this
    · simp only [inList, getKey_setKey_ne md x x' _ hx]
  · intro x' q'
    rcases eq_or_ne x' x with hx | hx
    · subst hx
      simp only [outList, getKey_setKey_self md x' _, hn]
    · simp only [outList, getKey_setKey_ne md x x' _ hx]
  · exact setKey_map_fst md x _ (by simp [hn])
  · intro x' q'
    unfold hasInPort
    constructor
    · rintro ⟨m, hm, hmq⟩
      rw [getKey_setKey_cases] at hm
      by_cases hx : x' = x
      · rw [if_pos hx] at hm
        obtain rfl : ({ n with inputs := setKey n.inputs q (f cs) } : Node) = m := by
          injection hm
        refine ⟨n, hx ▸ hn, ?_⟩
        simp only [getKey_setKey_cases] at hmq
        by_cases hq' : q' = q
        · rw [hq', hcs]
          rfl
        · rw [if_neg hq'] at hmq
          exact hmq
      · rw [if_neg hx] at hm
        exact ⟨m, hm, hmq⟩
    · rintro ⟨m, hm, hmq⟩
      rw [getKey_setKey_cases]
      by_cases hx : x' = x
      · rw [if_pos hx]
        refine ⟨_, rfl, ?_⟩
        have hm' : m = n := by
          rw [hx, hn] at hm
          injection hm with hm'
          exact hm'.symm
        subst hm'
        simp only [getKey_setKey_cases]
        by_cases hq' : q' = q
        · rw [if_pos hq']
          rfl
        · rw [if_neg hq']
          exact hmq
      · rw [if_neg hx]
        exact ⟨m, hm, hmq⟩
  · intro x' q'
    unfold hasOutPort
    constructor
    · rintro ⟨m, hm, hmq⟩
      rw [getKey_setKey_cases] at hm
      by_cases hx : x' = x
      · rw [if_pos hx] at hm
        obtain rfl : ({ n with inputs := setKey n.inputs q (f cs) } : Node) = m := by
          injection hm
        exact ⟨n, hx ▸ hn, hmq⟩
      · rw [if_neg hx] at hm
        exact ⟨m, hm, hmq⟩
    · rintro ⟨m, hm, hmq⟩
      rw [getKey_setKey_cases]
      by_cases hx : x' = x
      · rw [if_pos hx]
        refine ⟨_, rfl, ?_⟩
        have hm' : m = n := by
          rw [hx, hn] at hm
          injection hm with hm'
          exact hm'.symm
        subst hm'
        exact hmq
      · rw [if_neg hx]
        exact ⟨m, hm, hmq⟩

theorem modifyOut_spec (md : ModuleData) (x q : String) (f : List OutConn → List OutConn)
    (h : hasOutPort md x q) :
    ∃ md', modifyOut md x q f = some md' ∧
      outList md' x q = f (outList md x q) ∧
      (∀ x' q', ¬(x' = x ∧ q' = q) → outList md' x' q' = outList md x' q') ∧
      (∀ x' q', inList md' x' q' = inList md x' q') ∧
      md'.map Prod.fst = md.map Prod.fst ∧
      (∀ x' q', hasInPort md' x' q' ↔ hasInPort md x' q') ∧
      (∀ x' q', hasOutPort md' x' q' ↔ hasOutPort md x' q') := by
  obtain ⟨n, hn, hq⟩ := h
  obtain ⟨cs, hcs⟩ := Option.isSome_iff_exists.mp hq
  refine ⟨setKey md x { n with outputs := setKey n.outputs q (f cs) }, ?_, ?_, ?_, ?_, ?_, ?_, ?_⟩
  · simp [modifyOut, hn, hcs]
  · rw [outList_eq md x q n cs hn hcs]
    refine outList_eq _ x q _ (f cs) (getKey_setKey_self md x _) ?_
    simpa using getKey_setKey_self n.outputs q (f cs)
  · intro x' q' hne
    rcases eq_or_ne x' x with hx | hx
    · subst hx
      have hq' : q' ≠ q := fun he => hne ⟨rfl, he⟩
      simp only [outList, getKey_setKey_self md x' _, hn]
      have : getKey (setKey n.outputs q (f cs)) q' = getKey n.outputs q' :=
        getKey_setKey_ne n.outputs q q' (f cs) hq'
      simpa using congrArg (fun o => Option.getD o ([] : List OutConn)) this
    · simp only [outList, getKey_setKey_ne md x x' _ hx]
  · intro x' q'
    rcases eq_or_ne x' x with hx | hx
    · subst hx
      simp only [inList, getKey_setKey_self md x' _, hn]
    · simp only [inList, getKey_setKey_ne md x x' _ hx]
  · exact setKey_map_fst md x _ (by simp [hn])
  · intro x' q'
    unfold hasInPort
    constructor
    · rintro ⟨m, hm, hmq⟩
      rw [getKey_setKey_cases] at hm
      by_cases hx : x' = x
      · rw [if_pos hx] at hm
        obtain rfl : ({ n with outputs := setKey n.outputs q (f cs) } : Node) = m := by
          injection hm
        exact ⟨n, hx ▸ hn, hmq⟩
      · rw [if_neg hx] at hm
        exact ⟨m, hm, hmq⟩
    · rintro ⟨m, hm, hmq⟩
      rw [getKey_setKey_cases]
      by_cases hx : x' = x
      · rw [if_pos hx]
        refine ⟨_, rfl, ?_⟩
        have hm' : m = n := by
          rw [hx, hn] at hm
          injection hm with hm'
          exact hm'.symm
        subst hm'
        exact hmq
      · rw [if_neg hx]
        exact ⟨m, hm, hmq⟩
  · intro x' q'
    unfold hasOutPort
    constructor
    · rintro ⟨m, hm, hmq⟩
      rw [getKey_setKey_cases] at hm
      by_cases hx : x' = x
      · rw [if_pos hx] at hm
        obtain rfl : ({ n with outputs := setKey n.outputs q (f cs) } : Node) = m := by
          injection hm
        refine ⟨n, hx ▸ hn, ?_⟩
        simp only [getKey_setKey_cases] at hmq
        by_cases hq' : q' = q
        · rw [hq', hcs]
          rfl
        · rw [if_neg hq'] at hmq
          exact hmq
      · rw [if_neg hx] at hm
        exact ⟨m, hm, hmq⟩
    · rintro ⟨m, hm, hmq⟩
      rw [getKey_setKey_cases]
      by_cases hx : x' = x
      · rw [if_pos hx]
        refine ⟨_, rfl, ?_⟩
        have hm' : m = n := by
          rw [hx, hn] at hm
          injection hm with hm'
          exact hm'.symm
        subst hm'
        simp only [getKey_setKey_cases]
        by_cases hq' : q' = q
        · rw [if_pos hq']
          rfl
        · rw [if_neg hq']
          exact hmq
      · rw [if_neg hx]
        exact ⟨m, hm, hmq⟩

theorem runEAct_spec (md : ModuleData) (a : EAct)
    (hok : actOk md a) (hcnt : actCount md a = 1) :
    ∃ md', runEAct md a = some md' ∧
      actCount md' a = 0 ∧
      (∀ b, EActIndep a b → actCount md' b = actCount md b) ∧
      (∀ x q, List.Sublist (inList md' x q) (inList md x q)) ∧
      (∀ x q, List.Sublist (outList md' x q) (outList md x q)) ∧
      (∀ x q, ¬ a.touchesIn x q → inList md' x q = inList md x q) ∧
      (∀ x q, ¬ a.touchesOut x q → outList md' x q = outList md x q) ∧
      md'.map Prod.fst = md.map Prod.fst ∧
      (∀ b, actOk md' b ↔ actOk md b) := by
  cases a with
  | ain e =>
    obtain ⟨md', hrun, hself, hother, hout, hkeys, hin_iff, hout_iff⟩ :=
      modifyIn_spec md e.in_id e.input_class (spliceFindOrLast (inPredOut e)) hok
    refine ⟨md', hrun, ?_, ?_, ?_, ?_, ?_, ?_, hkeys, ?_⟩
    · show (inList md' e.in_id e.input_class).countP (inPredOut e) = 0
      rw [hself]
      exact countP_spliceFindOrLast_self _ _ hcnt
    · intro b hb
      cases b with
      | ain e' =>
        simp only [actCount]
        by_cases hsame : e'.in_id = e.in_id ∧ e'.input_class = e.input_class
        · rw [hsame.1, hsame.2, hself]
          exact countP_spliceFindOrLast_other _ _ _ hcnt
            (hb ⟨hsame.1.symm, hsame.2.symm⟩)
        · rw [hother _ _ hsame]
      | aout e' =>
        simp only [actCount]
        rw [hout]
    · intro x q
      by_cases hsame : x = e.in_id ∧ q = e.input_class
      · rw [hsame.1, hsame.2, hself]
        exact spliceFindOrLast_sublist _ _
      · rw [hother _ _ hsame]
    · intro x q
      rw [hout]
    · intro x q ht
      refine hother x q ?_
      rintro ⟨rfl, rfl⟩
      exact ht ⟨rfl, rfl⟩
    · intro x q _
      exact hout x q
    · intro b
      cases b with
      | ain e' => exact hin_iff e'.in_id e'.input_class
      | aout e' => exact hout_iff e'.out_id e'.output_class
  | aout e =>
    obtain ⟨md', hrun, hself, hother, hin, hkeys, hin_iff, hout_iff⟩ :=
      modifyOut_spec md e.out_id e.output_class (spliceFindOrLast (outPredOut e)) hok
    refine ⟨md', hrun, ?_, ?_, ?_, ?_, ?_, ?_, hkeys, ?_⟩
    · show (outList md' e.out_id e.output_class).countP (outPredOut e) = 0
      rw [hself]
      exact countP_spliceFindOrLast_self _ _ hcnt
    · intro b hb
      cases b with
      | ain e' =>
        simp only [actCount]
        rw [hin]
      | aout e' =>
        simp only [actCount]
        by_cases hsame : e'.out_id = e.out_id ∧ e'.output_class = e.output_class
        · rw [hsame.1, hsame.2, hself]
          exact countP_spliceFindOrLast_other _ _ _ hcnt
            (hb ⟨hsame.1.symm, hsame.2.symm⟩)
        · rw [hother _ _ hsame]
    · intro x q
      rw [hin]
    · intro x q
      by_cases hsame : x = e.out_id ∧ q = e.output_class
      · rw [hsame.1, hsame.2, hself]
        exact spliceFindOrLast_sublist _ _
      · rw [hother _ _ hsame]
    · intro x q _
      exact hin x q
    · intro x q ht
      refine hother x q ?_
      rintro ⟨rfl, rfl⟩
      exact ht ⟨rfl, rfl⟩
    · intro b
      cases b with
      | ain e' => exact hin_iff e'.in_id e'.input_class
      | aout e' => exact hout_iff e'.out_id e'.output_class

theorem runEActs_spec (acts : List EAct) (md : ModuleData)
    (hok : ∀ a ∈ acts, actOk md a)
    (hcnt : ∀ a ∈ acts, actCount md a = 1)
    (hind : acts.Pairwise EActIndep) :
    ∃ md', runEActs md acts = some md' ∧
      (∀ a ∈ acts, actCount md' a = 0) ∧
      (∀ x q, List.Sublist (inList md' x q) (inList md x q)) ∧
      (∀ x q, List.Sublist (outList md' x q) (outList md x q)) ∧
      (∀ x q, (∀ a ∈ acts, ¬ a.touchesIn x q) → inList md' x q = inList md x q) ∧
      (∀ x q, (∀ a ∈ acts, ¬ a.touchesOut x q) → outList md' x q = outList md x q) ∧
      md'.map Prod.fst = md.map Prod.fst ∧
      (∀ b, actOk md' b ↔ actOk md b) := by
  induction acts generalizing md with
  | nil =>
    refine ⟨md, rfl, by simp, ?_, ?_, ?_, ?_, rfl, fun b => Iff.rfl⟩
    · intro x q
      exact List.Sublist.refl _
    · intro x q
      exact List.Sublist.refl _
    · intro x q _
      rfl
    · intro x q _
      rfl
  | cons a rest ih =>
    obtain ⟨md1, hrun1, hz1, hpres1, hsubIn1, hsubOut1, huntIn1, huntOut1, hkeys1, hok1⟩ :=
      runEAct_spec md a (hok a (by simp)) (hcnt a (by simp))
    rcases List.pairwise_cons.mp hind with ⟨hhead, htail⟩
    have hok' : ∀ b ∈ rest, actOk md1 b := fun b hb => (hok1 b).mpr (hok b (by simp [hb]))
    have hcnt' : ∀ b ∈ rest, actCount md1 b = 1 := fun b hb => by
      rw [hpres1 b (hhead b hb)]
      exact hcnt b (by simp [hb])
    obtain ⟨md', hrun', hz', hsubIn', hsubOut', huntIn', huntOut', hkeys', hok''⟩ :=
      ih md1 hok' hcnt' htail
    refine ⟨md', ?_, ?_, ?_, ?_, ?_, ?_, ?_, ?_⟩
    · show (a :: rest).foldlM runEAct md = some md'
      rw [List.foldlM_cons, hrun1]
      exact hrun'
    · intro b hb
      rcases List.mem_cons.mp hb with rfl | hb'
      · cases b with
        | ain e =>
          have h1 : (inList md1 e.in_id e.input_class).countP (inPredOut e) = 0 := hz1
          have hsub := (hsubIn' e.in_id e.input_class).countP_le (inPredOut e)
          show (inList md' e.in_id e.input_class).countP (inPredOut e) = 0
          omega
        | aout e =>
          have h1 : (outList md1 e.out_id e.output_class).countP (outPredOut e) = 0 := hz1
          have hsub := (hsubOut' e.out_id e.output_class).countP_le (outPredOut e)
          show (outList md' e.out_id e.output_class).countP (outPredOut e) = 0
          omega
      · exact hz' b hb'
    · intro x q
      exact (hsubIn' x q).trans (hsubIn1 x q)
    · intro x q
      exact (hsubOut' x q).trans (hsubOut1 x q)
    · intro x q hnt
      rw [huntIn' x q (fun b hb => hnt b (by simp [hb])), huntIn1 x q (hnt a (by simp))]
    · intro x q hnt
      rw [huntOut' x q (fun b hb => hnt b (by simp [hb])), huntOut1 x q (hnt a (by simp))]
    · rw [hkeys', hkeys1]
    · intro b
      exact (hok'' b).trans (hok1 b)

theorem setKey_append_of_none (m : List (String × α)) (k : String) (v : α)
    (h : getKey m k = none) : setKey m k v = m ++ [(k, v)] := by
  induction m with
  | nil => simp [setKey]
  | cons kv rest ih =>
    simp only [getKey] at h
    by_cases hk : kv.1 = k
    · rw [if_pos (by simpa using hk)] at h
      cases h
    · rw [if_neg (by simpa using hk)] at h
      simp only [setKey]
      rw [if_neg (by simpa using hk)]
      simp [ih h]

theorem foldl_scan_no_match (id : JsId) (name : String) (md : ModuleData)
    (acc : Option String) (h : ∀ kv ∈ md, jsLooseEq kv.1 id = false) :
    md.foldl (fun acc2 kv => if jsLooseEq kv.1 id then some name else acc2) acc = acc := by
  induction md generalizing acc with
  | nil => rfl
  | cons kv rest ih =>
    simp only [List.foldl_cons]
    rw [if_neg (by simp [h kv (by simp)])]
    exact ih acc (fun kv' h' => h kv' (by simp [h']))

theorem getModuleFromNodeId_eq_none (store : Store) (id : JsId)
    (h : ∀ m ∈ store, ∀ kv ∈ m.2, jsLooseEq kv.1 id = false) :
    getModuleFromNodeId store id = none := by
  unfold getModuleFromNodeId
  induction store with
  | nil => rfl
  | cons m rest ih =>
    simp only [List.foldl_cons]
    rw [foldl_scan_no_match id m.1 m.2 none (h m (by simp))]
    exact ih (fun m' h' => h m' (by simp [h']))

/-- C4, counterexample.  The claim states that getNodeFromId surfaces an
explicit not-found result and never throws; on a store whose only module
is empty, looking up an absent id makes getNodeFromId dereference the
data property of undefined, a thrown TypeError, while only
getModuleFromNodeId returns the undefined value. -/
theorem claim_C4_counterexample :
    getNodeFromId [("Home", [])] (.str "99") = .thrown ∧
    getModuleFromNodeId [("Home", [])] (.str "99") = none := by
  constructor
  · rfl
  · rfl

/-- C4, amended: for every id absent from every module,
getModuleFromNodeId returns undefined, an explicit not-found signal, but
getNodeFromId throws a TypeError instead of surfacing a not-found
result. -/
theorem claim_C4_absent_lookup (store : Store) (id : JsId)
    (h : ∀ m ∈ store, ∀ kv ∈ m.2, jsLooseEq kv.1 id = false) :
    getModuleFromNodeId store id = none ∧ getNodeFromId store id = .thrown := by
  have hm := getModuleFromNodeId_eq_none store id h
  exact ⟨hm, by rw [getNodeFromId, hm]⟩

/-- C4, witness for the amended theorem at a concrete store and id. -/
theorem claim_C4_witness :
    getModuleFromNodeId [("Home", [("1", telegramNode)])] (.str "2") = none ∧
    getNodeFromId [("Home", [("1", telegramNode)])] (.str "2") = .thrown :=
  claim_C4_absent_lookup [("Home", [("1", telegramNode)])] (.str "2") (by decide)

/-- C2.  The claim states that a second identical addConnection call with
the numeric ids addNode returns yields false and leaves the connection
lists unchanged; evaluating the session shows both calls return true and
the source node's output list holds two copies of the record, because the
duplicate check compares the stored stringified id with the raw number
under strict equality. -/
theorem claim_C2_duplicate_not_rejected : dupRun = .ok (true, true, 2) := by decide

/-- C1.  The claim states the pairing biconditional holds after any
sequence of public add and remove operations; in the session built from
addNode, addConnection and removeNodeInput with the numeric ids addNode
returned, addConnection succeeds yet afterwards the pairing check is
false: removeNodeInput deleted the target port but its strict-equality
comparison of the stored string id with the numeric argument missed the
peer record, which survives as a dangling half of the pair. -/
theorem claim_C1_pairing_broken : pairingRun = .ok (true, false) := by decide

/-- C7.  The claim states removeReroutePoint deletes the points-list entry
at the clicked point's ordinal among the sibling point elements in both
rendering modes.  In the default mode the children are the single main
path followed by the points, so the clicked point's child index is its
ordinal plus one, and the code splices at that unadjusted index: deleting
the only point of a one-point list removes nothing, and deleting the
first of two points removes the second; in fix_curvature mode the
subtraction of the main-path count makes the index correct. -/
theorem claim_C7_default_mode_off_by_one :
    removeReroutePointModel false (defaultChildren 1) 1 [⟨10, 20⟩] = [⟨10, 20⟩] ∧
    removeReroutePointModel false (defaultChildren 2) 1 [⟨1, 1⟩, ⟨2, 2⟩] = [⟨1, 1⟩] ∧
    removeReroutePointModel true (fixChildren 1) 2 [⟨10, 20⟩] = [] := by decide

/-- C8, counterexample.  The claim states that when moduleChanged is
dispatched the active-module field already equals the dispatched name; on
a fresh editor switching to Work, the event is observed while the field
still holds Home. -/
theorem claim_C8_counterexample :
    (changeModule freshState ("Work")).1 = [(Event.moduleChanged "Work", "Home")] ∧
    ("Home" : String) ≠ "Work" := by decide

/-- C8, amended: changeModule dispatches moduleChanged before the
active-module field is updated, so the field observed at dispatch time is
the previous module name; immediately after dispatch the field is set to
the dispatched name, which the final state carries when the rebuild
succeeds. -/
theorem claim_C8_dispatch_precedes_field_update (st : EditorState) (name : String) :
    (changeModule st name).1 = [(Event.moduleChanged name, st.module)] ∧
    (changeModule st name).2.map EditorState.module =
      (changeModule st name).2.map (fun _ => name) := by
  refine ⟨rfl, ?_⟩
  unfold changeModule importModel clearModel
  cases h : getKey st.store name
  · simp [JsOutcome.map, h]
  · simp only [h, outc_some, jsOutcome_bind_ok]
    split <;> simp [JsOutcome.map]

/-- C10.  clear resets the module mapping to exactly the Home module with
empty data while leaving the active-module name field unchanged; hence
whenever a module other than Home was active, the active-module name
refers to no module present in the store afterwards. -/
theorem claim_C10_clear_keeps_module_field (st : EditorState) :
    (clearModel st).store = [("Home", [])] ∧
    (clearModel st).module = st.module ∧
    (st.module ≠ "Home" → getKey (clearModel st).store st.module = none) := by
  refine ⟨rfl, rfl, ?_⟩
  intro h
  show getKey [("Home", [])] st.module = none
  simp only [getKey]
  rw [if_neg (by simpa using fun he => h he.symm)]

/-- C10, witness: with Work active, after clear the active-module name is
absent from the store. -/
theorem claim_C10_witness :
    getKey (clearModel workState).store workState.module = none :=
  (claim_C10_clear_keeps_module_field workState).2.2 (by decide)

/-- C3.  The claim states import of an export reproduces every graph
state.  A reachable pairing-consistent graph refutes it: removeNodeOutput
deletes the empty port output_1 and leaves the connected port named
output_2; on import, addNodeImport renders the output divs renumbered
output_1 .. output_n, so load's updateConnectionNodes pass dereferences a
missing div and throws a TypeError — importing the export of such a state
throws instead of reproducing it. -/
theorem claim_C3_import_gap_throws :
    removeNodeOutput preGapState (.num 1) ("output_1") = .ok (gapState, []) ∧
    pairingHolds gapMd = true ∧
    importModel gapState (exportModel gapState).1 true = .thrown := by decide

/-- C9, counterexample.  The claim states addNodeInput and addNodeOutput
append the next-numbered port for every existing node; for a node named
telegram both operations reassign a const binding and throw a TypeError
instead. -/
theorem claim_C9_counterexample :
    addNodeInput telegramState (.num 1) = .thrown ∧
    addNodeOutput telegramState (.num 1) = .thrown := by
  constructor
  · rfl
  · rfl

/-- C9, amended: for every node of the active module whose name is not
telegram and whose port map does not already hold a port of the new name
(a gap state can), addNodeInput appends a port named input_(n+1), where n
is the current input count, with an empty connection list, leaving every
existing port, its connection list, the other direction, all other nodes
and the rest of the state unchanged; addNodeOutput is the mirror image.
Nodes named telegram instead throw a TypeError from a const
reassignment. -/
theorem claim_C9_port_append (st : EditorState) (id : JsId) (md : ModuleData) (node : Node)
    (hmod : getModuleFromNodeId st.store id = some st.module)
    (hmd : getKey st.store st.module = some md)
    (hnode : getKey md id.key = some node)
    (hname : node.name ≠ "telegram")
    (hgapIn : getKey node.inputs ("input_" ++ toString (node.inputs.length + 1)) = none)
    (hgapOut : getKey node.outputs ("output_" ++ toString (node.outputs.length + 1)) = none) :
    (addNodeInput st id = .ok ({ st with store := setKey st.store st.module (setKey md id.key
        { node with inputs :=
            node.inputs ++ [("input_" ++ toString (node.inputs.length + 1), [])] }) }, [])) ∧
    (addNodeOutput st id = .ok ({ st with store := setKey st.store st.module (setKey md id.key
        { node with outputs :=
            node.outputs ++ [("output_" ++ toString (node.outputs.length + 1), [])] }) }, [])) := by
  constructor
  · unfold addNodeInput
    rw [hmod]
    simp only [outc_some, jsOutcome_bind_ok, hmd, hnode]
    rw [if_neg (by simpa using hname)]
    rw [setKey_append_of_none node.inputs _ _ hgapIn]
    rfl
  · unfold addNodeOutput
    rw [hmod]
    simp only [outc_some, jsOutcome_bind_ok, hmd, hnode]
    rw [if_neg (by simpa using hname)]
    rw [setKey_append_of_none node.outputs _ _ hgapOut]
    rfl

/-- C9, witness at a node with one populated input port and one output
port. -/
theorem claim_C9_witness :
    (addNodeInput c9State (.num 1) = .ok ({ c9State with
        store := setKey c9State.store c9State.module (setKey [("1", c9Node)] (JsId.num 1).key
          { c9Node with inputs :=
              c9Node.inputs ++ [("input_" ++ toString (c9Node.inputs.length + 1), [])] }) }, [])) ∧
    (addNodeOutput c9State (.num 1) = .ok ({ c9State with
        store := setKey c9State.store c9State.module (setKey [("1", c9Node)] (JsId.num 1).key
          { c9Node with outputs :=
              c9Node.outputs ++ [("output_" ++ toString (c9Node.outputs.length + 1), [])] }) }, [])) :=
  claim_C9_port_append c9State (.num 1) [("1", c9Node)] c9Node
    (by decide) (by decide) (by decide) (by decide) (by decide) (by decide)

theorem bump_eq_max (n v : Int) : (if v ≥ n then v + 1 else n) = max n (v + 1) := by
  rcases le_or_lt n v with h | h
  · rw [if_pos h, max_eq_right]
    omega
  · rw [if_neg (by omega), max_eq_left]
    omega

theorem le_foldl_max (l : List Int) : ∀ b : Int, b ≤ l.foldl max b := by
  induction l with
  | nil => intro b; simp
  | cons v t ih =>
    intro b
    calc b ≤ max b v := le_max_left b v
    _ ≤ t.foldl max (max b v) := ih (max b v)

theorem foldl_bump_eq_max (l : List Int) : ∀ a : Int,
    l.foldl (fun n v => max n (v + 1)) a = max a (l.foldl max (a - 1) + 1) := by
  induction l with
  | nil => intro a; simp
  | cons v t ih =>
    intro a
    simp only [List.foldl_cons]
    rw [ih (max a (v + 1))]
    have h1 : max a (v + 1) - 1 = max (a - 1) v := by
      rcases le_total a (v + 1) with h | h
      · rw [max_eq_right h, max_eq_right (by omega)]
        omega
      · rw [max_eq_left h, max_eq_left (by omega)]
    rw [h1]
    have h2 : v + 1 ≤ t.foldl max (max (a - 1) v) + 1 := by
      have ha := le_foldl_max t (max (a - 1) v)
      have hb := le_max_right (a - 1) v
      omega
    rw [max_comm a (v + 1), max_assoc]
    exact max_eq_right (le_trans h2 (le_max_right a _))

theorem inner_counter_fold (md : ModuleData) : ∀ n : Int,
    md.foldl (fun n kv =>
        match jsParseInt kv.1 with
        | some v => if v ≥ n then v + 1 else n
        | none => n) n =
      ((md.map Prod.fst).filterMap jsParseInt).foldl (fun n v => max n (v + 1)) n := by
  induction md with
  | nil => intro n; rfl
  | cons kv t ih =>
    intro n
    simp only [List.foldl_cons, List.map_cons, List.filterMap_cons]
    cases h : jsParseInt kv.1 with
    | none => exact ih n
    | some v =>
      simp only [List.foldl_cons]
      rw [bump_eq_max]
      exact ih (max n (v + 1))

theorem loadCounter_flat_aux (store : Store) : ∀ a : Int,
    store.foldl
        (fun num m => m.2.foldl
          (fun n kv =>
            match jsParseInt kv.1 with
            | some v => if v ≥ n then v + 1 else n
            | none => n)
          num)
        a =
      ((store.flatMap (fun m => m.2.map Prod.fst)).filterMap jsParseInt).foldl
        (fun n v => max n (v + 1)) a := by
  induction store with
  | nil => intro a; rfl
  | cons m t ih =>
    intro a
    simp only [List.foldl_cons, List.flatMap_cons, List.filterMap_append, List.foldl_append]
    rw [inner_counter_fold m.2 a]
    exact ih _

theorem loadCounter_eq_flat (store : Store) :
    loadCounter store =
      ((allIds store).filterMap jsParseInt).foldl (fun n v => max n (v + 1)) 1 := by
  unfold loadCounter allIds
  exact loadCounter_flat_aux store 1

theorem addMany_from (ps : List NodeParams) : ∀ (md : ModuleData) (c : Nat) (dom : List ConnElem),
    addMany { store := [("Home", md)], module := "Home", dom := dom, nodeId := c } ps =
      .ok ({ store := [("Home", mdAfter md c ps)], module := "Home", dom := dom,
             nodeId := c + ps.length },
           List.range' c ps.length) := by
  induction ps with
  | nil =>
    intro md c dom
    simp [addMany, mdAfter, List.range']
  | cons p t ih =>
    intro md c dom
    show (addNodeP { store := [("Home", md)], module := "Home", dom := dom, nodeId := c } p >>=
      fun r => addMany r.1 t >>= fun r2 => pure (r2.1, r.2.2 :: r2.2)) = _
    have hstep : addNodeP { store := [("Home", md)], module := "Home", dom := dom, nodeId := c } p =
        .ok ({ store := [("Home", setKey md (toString c) (nodeOf c p))], module := "Home",
               dom := dom, nodeId := c + 1 }, [.nodeCreated (.num c)], c) := by
      simp [addNodeP, addNode, getKey, setKey, JsId.key, nodeOf]
    rw [hstep]
    simp only [jsOutcome_bind_ok]
    rw [ih (setKey md (toString c) (nodeOf c p)) (c+1) dom]
    simp only [jsOutcome_bind_ok]
    show JsOutcome.ok _ = _
    have hr : List.range' c (t.length + 1) = c :: List.range' (c+1) t.length := List.range'_succ c t.length 1
    have hl : c + (t.length + 1) = (c + 1) + t.length := by omega
    rw [List.length_cons, hl, ← hr]
    rfl

theorem inner_scan_keeps_some (name : String) (id : JsId) (md : ModuleData) :
    md.foldl (fun acc2 kv => if jsLooseEq kv.1 id then some name else acc2) (some name) =
      some name := by
  induction md with
  | nil => rfl
  | cons kv t ih =>
    simp only [List.foldl_cons]
    split
    · exact ih
    · exact ih

theorem inner_scan_hits (name : String) (id : JsId) (md : ModuleData)
    (h : ∃ kv ∈ md, jsLooseEq kv.1 id = true) :
    md.foldl (fun acc2 kv => if jsLooseEq kv.1 id then some name else acc2) none =
      some name := by
  induction md with
  | nil => simp at h
  | cons kv t ih =>
    simp only [List.foldl_cons]
    by_cases hm : jsLooseEq kv.1 id = true
    · rw [if_pos hm]
      exact inner_scan_keeps_some name id t
    · rw [if_neg hm]
      refine ih ?_
      rcases h with ⟨kv', hkv', hmatch⟩
      rcases List.mem_cons.mp hkv' with rfl | hkv'
      · exact absurd hmatch hm
      · exact ⟨kv', hkv', hmatch⟩

theorem getModuleFromNodeId_single (name : String) (md : ModuleData) (id : JsId)
    (h : ∃ kv ∈ md, jsLooseEq kv.1 id = true) :
    getModuleFromNodeId [(name, md)] id = some name := by
  unfold getModuleFromNodeId
  simp only [List.foldl_cons, List.foldl_nil]
  exact inner_scan_hits name id md h

theorem mem_keys_setKey (m : List (String × α)) (k0 k : String) (v : α)
    (h : k0 ∈ m.map Prod.fst) : k0 ∈ (setKey m k v).map Prod.fst := by
  by_cases hk : k0 = k
  · subst hk
    rw [← getKey_isSome_iff, getKey_setKey_self]
    rfl
  · rw [← getKey_isSome_iff, getKey_setKey_ne m k k0 v hk, getKey_isSome_iff]
    exact h

theorem self_mem_keys_setKey (m : List (String × α)) (k : String) (v : α) :
    k ∈ (setKey m k v).map Prod.fst := by
  rw [← getKey_isSome_iff, getKey_setKey_self]
  rfl

theorem mem_keys_mdAfter (ps : List NodeParams) :
    ∀ (md : ModuleData) (c : Nat) (k0 : String),
    (k0 ∈ md.map Prod.fst ∨ ∃ i, c ≤ i ∧ i < c + ps.length ∧ k0 = toString i) →
    k0 ∈ (mdAfter md c ps).map Prod.fst := by
  induction ps with
  | nil =>
    intro md c k0 h
    rcases h with h | ⟨i, h1, h2, _⟩
    · exact h
    · simp at h2
      omega
  | cons p t ih =>
    intro md c k0 h
    show k0 ∈ (mdAfter (setKey md (toString c) (nodeOf c p)) (c+1) t).map Prod.fst
    refine ih _ (c+1) k0 ?_
    rcases h with h | ⟨i, h1, h2, h3⟩
    · exact Or.inl (mem_keys_setKey md k0 (toString c) _ h)
    · rcases Nat.eq_or_lt_of_le h1 with heq | hlt
      · refine Or.inl ?_
        rw [h3, ← heq]
        exact self_mem_keys_setKey md (toString c) _
      · refine Or.inr ⟨i, hlt, ?_, h3⟩
        simp only [List.length_cons] at h2
        omega

theorem removeConnectionNodeId_empty_dom (st : EditorState) (id : JsId)
    (h : st.dom = []) :
    removeConnectionNodeId st id = .ok (st, []) := by
  obtain ⟨store, module, dom, nodeId⟩ := st
  simp only at h
  subst h
  rfl

/-- C6, counterexample.  The claim states the counter only increases and
never reuses a deleted id within the same session; but changeModule
re-imports the store, re-running load, which recomputes the counter
downward once the highest node is deleted: creating nodes 1 and 2,
deleting node 2, switching modules and creating again returns the deleted
id 2. -/
theorem claim_C6_counterexample : c6ReuseRun = .ok (2, 2) := by decide

/-- C6, amended.  The node-id counter is recomputed as one more than the
maximum parseable numeric id over every module (at least the start value
one) whenever load runs, and between loads it only increases: after
creating nodes with ids one to k from a fresh editor and deleting node k,
the next addNode call returns id k plus one.  A module switch re-runs
load and recomputes the counter downward, so freed ids can be reused
across it. -/
theorem claim_C6_id_monotonic :
    (∀ store : Store, loadCounter store =
      max 1 (((allIds store).filterMap jsParseInt).foldl max 0 + 1)) ∧
    (∀ (k : Nat) (ps : List NodeParams) (p : NodeParams) (idArg : String),
      1 ≤ k → ps.length = k → extractNodeId idArg = toString k →
      ∃ st2 evs,
        addMany freshState ps =
          .ok ({ store := [("Home", mdAfter [] 1 ps)], module := "Home", dom := [],
                 nodeId := k + 1 }, List.range' 1 k) ∧
        removeNodeId { store := [("Home", mdAfter [] 1 ps)], module := "Home", dom := [],
                       nodeId := k + 1 } idArg = .ok (st2, evs) ∧
        st2.nodeId = k + 1 ∧
        (addNodeP st2 p).map (fun r => r.2.2) = .ok (k + 1)) := by
  constructor
  · intro store
    rw [loadCounter_eq_flat, foldl_bump_eq_max]
    norm_num
  · intro k ps p idArg hk1 hlen hid
    subst hlen
    have hmem : toString ps.length ∈ (mdAfter [] 1 ps).map Prod.fst :=
      mem_keys_mdAfter ps [] 1 (toString ps.length)
        (Or.inr ⟨ps.length, hk1, by omega, rfl⟩)
    obtain ⟨kv, hkv, hfst⟩ := List.mem_map.mp hmem
    have hmod : getModuleFromNodeId [("Home", mdAfter [] 1 ps)]
        (.str (toString ps.length)) = some "Home" :=
      getModuleFromNodeId_single _ _ _ ⟨kv, hkv, by simp [jsLooseEq, hfst]⟩
    refine ⟨{ store := [("Home", delKey (mdAfter [] 1 ps) (toString ps.length))],
              module := "Home", dom := [], nodeId := ps.length + 1 },
            [Event.nodeRemoved (toString ps.length)], ?_, ?_, rfl, ?_⟩
    · have h1 := addMany_from ps [] 1 []
      rw [Nat.add_comm 1 ps.length] at h1
      exact h1
    · unfold removeNodeId
      simp only [hid]
      rw [removeConnectionNodeId_empty_dom _ _ rfl, hmod]
      simp [getKey, setKey]
    · simp [addNodeP, addNode, getKey, JsOutcome.map]

/-- C6, witness for the scenario at k equal one. -/
theorem claim_C6_witness :
    ∃ st2 evs,
      addMany freshState [({} : NodeParams)] =
        .ok ({ store := [("Home", mdAfter [] 1 [({} : NodeParams)])], module := "Home",
               dom := [], nodeId := 1 + 1 }, List.range' 1 1) ∧
      removeNodeId { store := [("Home", mdAfter [] 1 [({} : NodeParams)])], module := "Home",
                     dom := [], nodeId := 1 + 1 } ("node-1") = .ok (st2, evs) ∧
      st2.nodeId = 1 + 1 ∧
      (addNodeP st2 ({} : NodeParams)).map (fun r => r.2.2) = .ok (1 + 1) :=
  claim_C6_id_monotonic.2 1 [({} : NodeParams)] ({} : NodeParams) ("node-1")
    (by decide) (by decide) (by decide)

theorem tupCount_eq_zero_of_not_mem (l : List Tup) (t : Tup) (h : t ∉ l) :
    tupCount l t = 0 := by
  refine List.countP_eq_zero.mpr ?_
  intro a ha
  simp only [decide_eq_true_eq]
  intro he
  exact h (he ▸ ha)

theorem tupCount_eq_one_of_nodup_mem (l : List Tup) (t : Tup)
    (hn : l.Nodup) (ht : t ∈ l) : tupCount l t = 1 := by
  induction l with
  | nil => simp at ht
  | cons a rest ih =>
    by_cases he : a = t
    · subst he
      have h0 : tupCount rest a = 0 :=
        tupCount_eq_zero_of_not_mem rest a (List.nodup_cons.mp hn).1
      simp only [tupCount, List.countP_cons] at h0 ⊢
      simp [h0]
    · have ht' : t ∈ rest := by
        rcases List.mem_cons.mp ht with h | h
        · exact absurd h.symm he
        · exact h
      have hr := ih (List.nodup_cons.mp hn).2 ht'
      simp only [tupCount, List.countP_cons] at hr ⊢
      simp [he, hr]

theorem mem_of_tupCount_pos (l : List Tup) (t : Tup) (h : 0 < tupCount l t) :
    t ∈ l := by
  obtain ⟨a, ha, hp⟩ := List.countP_pos_iff.mp h
  simp only [decide_eq_true_eq] at hp
  exact hp ▸ ha

theorem tupCount_perm (l l' : List Tup) (h : List.Perm l l') (t : Tup) :
    tupCount l t = tupCount l' t :=
  h.countP_eq _

theorem mem_outPairs_iff (md : ModuleData) (a p b q : String) :
    (a, p, b, q) ∈ outPairs md ↔
      ∃ n cs c, (a, n) ∈ md ∧ (p, cs) ∈ n.outputs ∧ c ∈ cs ∧
        c.node = b ∧ c.output = q := by
  unfold outPairs
  simp only [List.mem_flatMap, List.mem_map]
  constructor
  · rintro ⟨an, han, pc, hpc, c, hc, he⟩
    obtain ⟨h1, h2, h3, h4⟩ : an.1 = a ∧ pc.1 = p ∧ c.node = b ∧ c.output = q := by
      rw [Prod.mk.injEq, Prod.mk.injEq, Prod.mk.injEq] at he
      exact ⟨he.1, he.2.1, he.2.2.1, he.2.2.2⟩
    refine ⟨an.2, pc.2, c, ?_, ?_, hc, h3, h4⟩
    · rw [← h1]
      simpa using han
    · rw [← h2]
      simpa using hpc
  · rintro ⟨n, cs, c, hn, hcs, hc, h3, h4⟩
    exact ⟨(a, n), hn, (p, cs), hcs, c, hc, by simp [h3, h4]⟩

theorem mem_inPairs_iff (md : ModuleData) (a p b q : String) :
    (a, p, b, q) ∈ inPairs md ↔
      ∃ n cs c, (b, n) ∈ md ∧ (q, cs) ∈ n.inputs ∧ c ∈ cs ∧
        c.node = a ∧ c.input = p := by
  unfold inPairs
  simp only [List.mem_flatMap, List.mem_map]
  constructor
  · rintro ⟨bn, hbn, qc, hqc, c, hc, he⟩
    obtain ⟨h1, h2, h3, h4⟩ : c.node = a ∧ c.input = p ∧ bn.1 = b ∧ qc.1 = q := by
      rw [Prod.mk.injEq, Prod.mk.injEq, Prod.mk.injEq] at he
      exact ⟨he.1, he.2.1, he.2.2.1, he.2.2.2⟩
    refine ⟨bn.2, qc.2, c, ?_, ?_, hc, h1, h2⟩
    · rw [← h3]
      simpa using hbn
    · rw [← h4]
      simpa using hqc
  · rintro ⟨n, cs, c, hn, hcs, hc, h3, h4⟩
    exact ⟨(b, n), hn, (q, cs), hcs, c, hc, by simp [h3, h4]⟩

theorem hasInPort_of_mem_inPairs (md : ModuleData) (a p x q : String)
    (hkeys : (md.map Prod.fst).Nodup)
    (hports : ∀ kv ∈ md, (kv.2.inputs.map Prod.fst).Nodup)
    (h : (a, p, x, q) ∈ inPairs md) : hasInPort md x q := by
  obtain ⟨n, cs, c, hn, hcs, _, _, _⟩ := (mem_inPairs_iff md a p x q).mp h
  refine ⟨n, mem_getKey md x n hkeys hn, ?_⟩
  rw [mem_getKey n.inputs q cs (hports (x, n) hn) hcs]
  rfl

theorem hasOutPort_of_mem_outPairs (md : ModuleData) (a p b q : String)
    (hkeys : (md.map Prod.fst).Nodup)
    (hports : ∀ kv ∈ md, (kv.2.outputs.map Prod.fst).Nodup)
    (h : (a, p, b, q) ∈ outPairs md) : hasOutPort md a p := by
  obtain ⟨n, cs, c, hn, hcs, _, _, _⟩ := (mem_outPairs_iff md a p b q).mp h
  refine ⟨n, mem_getKey md a n hkeys hn, ?_⟩
  rw [mem_getKey n.outputs p cs (hports (a, n) hn) hcs]
  rfl

theorem tupCount_append (l1 l2 : List Tup) (t : Tup) :
    tupCount (l1 ++ l2) t = tupCount l1 t + tupCount l2 t :=
  List.countP_append _ _ _

theorem tupCount_flat_portIn (x a p q : String) :
    ∀ ports : List (String × List InConn), (ports.map Prod.fst).Nodup →
    tupCount (ports.flatMap (fun qc => qc.2.map (fun c =>
        ((c.node, c.input, x, qc.1) : Tup)))) (a, p, x, q) =
      ((getKey ports q).getD []).countP (fun c => c.node == a && c.input == p) := by
  intro ports
  induction ports with
  | nil => intro _; simp [tupCount, getKey]
  | cons qc rest ih =>
    intro hnd
    simp only [List.flatMap_cons]
    rw [tupCount_append]
    by_cases hq : qc.1 = q
    · have hrest : tupCount (rest.flatMap (fun qc => qc.2.map (fun c =>
          ((c.node, c.input, x, qc.1) : Tup)))) (a, p, x, q) = 0 := by
        refine List.countP_eq_zero.mpr ?_
        intro t' ht'
        simp only [decide_eq_true_eq]
        obtain ⟨qc', hqc', c, _, rfl⟩ := by
          simpa only [List.mem_flatMap, List.mem_map] using ht'
        intro he
        have h4 : qc'.1 = q := by
          rw [Prod.mk.injEq, Prod.mk.injEq, Prod.mk.injEq] at he
          exact he.2.2.2
        have : q ∈ rest.map Prod.fst := List.mem_map.mpr ⟨qc', hqc', h4⟩
        rw [List.map_cons, List.nodup_cons] at hnd
        exact hnd.1 (hq ▸ this)
      rw [hrest]
      have hhead : tupCount (qc.2.map (fun c => ((c.node, c.input, x, qc.1) : Tup)))
          (a, p, x, q) = qc.2.countP (fun c => c.node == a && c.input == p) := by
        unfold tupCount
        rw [List.countP_map]
        refine List.countP_congr ?_
        intro c _
        simp only [Function.comp_apply, decide_eq_true_eq, Prod.mk.injEq, Bool.and_eq_true,
          beq_iff_eq, hq]
        tauto
      rw [hhead]
      simp only [getKey]
      rw [if_pos (by simpa using hq)]
      simp
    · have hhead : tupCount (qc.2.map (fun c => ((c.node, c.input, x, qc.1) : Tup)))
          (a, p, x, q) = 0 := by
        refine List.countP_eq_zero.mpr ?_
        intro t' ht'
        simp only [decide_eq_true_eq]
        obtain ⟨c, _, rfl⟩ := List.mem_map.mp ht'
        intro he
        rw [Prod.mk.injEq, Prod.mk.injEq, Prod.mk.injEq] at he
        exact hq he.2.2.2
      rw [hhead]
      simp only [getKey]
      rw [if_neg (by simpa using hq)]
      rw [List.map_cons, List.nodup_cons] at hnd
      simpa using ih hnd.2

theorem tupCount_flat_portOut (x b p q : String) :
    ∀ ports : List (String × List OutConn), (ports.map Prod.fst).Nodup →
    tupCount (ports.flatMap (fun pc => pc.2.map (fun c =>
        ((x, pc.1, c.node, c.output) : Tup)))) (x, p, b, q) =
      ((getKey ports p).getD []).countP (fun c => c.node == b && c.output == q) := by
  intro ports
  induction ports with
  | nil => intro _; simp [tupCount, getKey]
  | cons pc rest ih =>
    intro hnd
    simp only [List.flatMap_cons]
    rw [tupCount_append]
    by_cases hp : pc.1 = p
    · have hrest : tupCount (rest.flatMap (fun pc => pc.2.map (fun c =>
          ((x, pc.1, c.node, c.output) : Tup)))) (x, p, b, q) = 0 := by
        refine List.countP_eq_zero.mpr ?_
        intro t' ht'
        simp only [decide_eq_true_eq]
        obtain ⟨pc', hpc', c, _, rfl⟩ := by
          simpa only [List.mem_flatMap, List.mem_map] using ht'
        intro he
        have h2 : pc'.1 = p := by
          rw [Prod.mk.injEq, Prod.mk.injEq] at he
          exact he.2.1
        have : p ∈ rest.map Prod.fst := List.mem_map.mpr ⟨pc', hpc', h2⟩
        rw [List.map_cons, List.nodup_cons] at hnd
        exact hnd.1 (hp ▸ this)
      rw [hrest]
      have hhead : tupCount (pc.2.map (fun c => ((x, pc.1, c.node, c.output) : Tup)))
          (x, p, b, q) = pc.2.countP (fun c => c.node == b && c.output == q) := by
        unfold tupCount
        rw [List.countP_map]
        refine List.countP_congr ?_
        intro c _
        simp only [Function.comp_apply, decide_eq_true_eq, Prod.mk.injEq, Bool.and_eq_true,
          beq_iff_eq, hp]
        tauto
      rw [hhead]
      simp only [getKey]
      rw [if_pos (by simpa using hp)]
      simp
    · have hhead : tupCount (pc.2.map (fun c => ((x, pc.1, c.node, c.output) : Tup)))
          (x, p, b, q) = 0 := by
        refine List.countP_eq_zero.mpr ?_
        intro t' ht'
        simp only [decide_eq_true_eq]
        obtain ⟨c, _, rfl⟩ := List.mem_map.mp ht'
        intro he
        rw [Prod.mk.injEq, Prod.mk.injEq] at he
        exact hp he.2.1
      rw [hhead]
      simp only [getKey]
      rw [if_neg (by simpa using hp)]
      rw [List.map_cons, List.nodup_cons] at hnd
      simpa using ih hnd.2

theorem tupCount_inPairs_zero_of_key_not_mem (md : ModuleData) (a p x q : String)
    (h : x ∉ md.map Prod.fst) : tupCount (inPairs md) (a, p, x, q) = 0 := by
  refine List.countP_eq_zero.mpr ?_
  intro t' ht'
  simp only [decide_eq_true_eq]
  intro he
  subst he
  obtain ⟨n, _, _, hn, _, _, _, _⟩ := (mem_inPairs_iff md a p x q).mp ht'
  exact h (List.mem_map.mpr ⟨(x, n), hn, rfl⟩)

theorem tupCount_outPairs_zero_of_key_not_mem (md : ModuleData) (a p b q : String)
    (h : a ∉ md.map Prod.fst) : tupCount (outPairs md) (a, p, b, q) = 0 := by
  refine List.countP_eq_zero.mpr ?_
  intro t' ht'
  simp only [decide_eq_true_eq]
  intro he
  subst he
  obtain ⟨n, _, _, hn, _, _, _, _⟩ := (mem_outPairs_iff md a p b q).mp ht'
  exact h (List.mem_map.mpr ⟨(a, n), hn, rfl⟩)

theorem countP_inList_eq_tupCount (md : ModuleData)
    (hkeys : (md.map Prod.fst).Nodup)
    (hports : ∀ kv ∈ md, (kv.2.inputs.map Prod.fst).Nodup)
    (a p x q : String) :
    (inList md x q).countP (fun c => c.node == a && c.input == p) =
      tupCount (inPairs md) (a, p, x, q) := by
  induction md with
  | nil => simp [inList, getKey, inPairs, tupCount]
  | cons kv rest ih =>
    rw [List.map_cons, List.nodup_cons] at hkeys
    unfold inPairs
    simp only [List.flatMap_cons]
    rw [tupCount_append]
    by_cases hx : kv.1 = x
    · have hrest : tupCount (inPairs rest) (a, p, x, q) = 0 :=
        tupCount_inPairs_zero_of_key_not_mem rest a p x q (hx ▸ hkeys.1)
      unfold inPairs at hrest
      rw [hrest]
      have hlist : inList (kv :: rest) x q = (getKey kv.2.inputs q).getD [] := by
        unfold inList
        simp only [getKey]
        rw [if_pos (by simpa using hx)]
      rw [hlist]
      have := tupCount_flat_portIn x a p q kv.2.inputs (hports kv (by simp))
      rw [← hx] at this ⊢
      rw [this]
      simp
    · have hhead : tupCount (kv.2.inputs.flatMap (fun qc => qc.2.map (fun c =>
          ((c.node, c.input, kv.1, qc.1) : Tup)))) (a, p, x, q) = 0 := by
        refine List.countP_eq_zero.mpr ?_
        intro t' ht'
        simp only [decide_eq_true_eq]
        obtain ⟨qc, _, c, _, rfl⟩ := by
          simpa only [List.mem_flatMap, List.mem_map] using ht'
        intro he
        rw [Prod.mk.injEq, Prod.mk.injEq, Prod.mk.injEq] at he
        exact hx he.2.2.1
      rw [hhead]
      have hlist : inList (kv :: rest) x q = inList rest x q := by
        unfold inList
        simp only [getKey]
        rw [if_neg (by simpa using hx)]
      rw [hlist]
      have := ih hkeys.2 (fun kv' hkv' => hports kv' (by simp [hkv']))
      unfold inPairs at this
      omega

theorem countP_outList_eq_tupCount (md : ModuleData)
    (hkeys : (md.map Prod.fst).Nodup)
    (hports : ∀ kv ∈ md, (kv.2.outputs.map Prod.fst).Nodup)
    (x p b q : String) :
    (outList md x p).countP (fun c => c.node == b && c.output == q) =
      tupCount (outPairs md) (x, p, b, q) := by
  induction md with
  | nil => simp [outList, getKey, outPairs, tupCount]
  | cons kv rest ih =>
    rw [List.map_cons, List.nodup_cons] at hkeys
    unfold outPairs
    simp only [List.flatMap_cons]
    rw [tupCount_append]
    by_cases hx : kv.1 = x
    · have hrest : tupCount (outPairs rest) (x, p, b, q) = 0 :=
        tupCount_outPairs_zero_of_key_not_mem rest x p b q (hx ▸ hkeys.1)
      unfold outPairs at hrest
      rw [hrest]
      have hlist : outList (kv :: rest) x p = (getKey kv.2.outputs p).getD [] := by
        unfold outList
        simp only [getKey]
        rw [if_pos (by simpa using hx)]
      rw [hlist]
      have := tupCount_flat_portOut x b p q kv.2.outputs (hports kv (by simp))
      rw [← hx] at this ⊢
      rw [this]
      simp
    · have hhead : tupCount (kv.2.outputs.flatMap (fun pc => pc.2.map (fun c =>
          ((kv.1, pc.1, c.node, c.output) : Tup)))) (x, p, b, q) = 0 := by
        refine List.countP_eq_zero.mpr ?_
        intro t' ht'
        simp only [decide_eq_true_eq]
        obtain ⟨pc, _, c, _, rfl⟩ := by
          simpa only [List.mem_flatMap, List.mem_map] using ht'
        intro he
        rw [Prod.mk.injEq] at he
        exact hx he.1
      rw [hhead]
      have hlist : outList (kv :: rest) x p = outList rest x p := by
        unfold outList
        simp only [getKey]
        rw [if_neg (by simpa using hx)]
      rw [hlist]
      have := ih hkeys.2 (fun kv' hkv' => hports kv' (by simp [hkv']))
      unfold outPairs at this
      omega

theorem len_outFlat (x : String) (ports : List (String × List OutConn)) :
    (ports.flatMap (fun pc => pc.2.map (fun c =>
        ((x, pc.1, c.node, c.output) : Tup)))).length =
      (ports.map (fun pc => pc.2.length)).sum := by
  induction ports with
  | nil => rfl
  | cons pc rest ih => simp [List.flatMap_cons, ih]

theorem len_inFlat (x : String) (ports : List (String × List InConn)) :
    (ports.flatMap (fun qc => qc.2.map (fun c =>
        ((c.node, c.input, x, qc.1) : Tup)))).length =
      (ports.map (fun qc => qc.2.length)).sum := by
  induction ports with
  | nil => rfl
  | cons qc rest ih => simp [List.flatMap_cons, ih]

theorem fst_mem_keys_of_mem_outPairs (md : ModuleData) (t : Tup)
    (h : t ∈ outPairs md) : t.1 ∈ md.map Prod.fst := by
  unfold outPairs at h
  simp only [List.mem_flatMap, List.mem_map] at h
  obtain ⟨an, han, pc, _, c, _, rfl⟩ := h
  exact List.mem_map.mpr ⟨an, han, rfl⟩

theorem trd_mem_keys_of_mem_inPairs (md : ModuleData) (t : Tup)
    (h : t ∈ inPairs md) : t.2.2.1 ∈ md.map Prod.fst := by
  unfold inPairs at h
  simp only [List.mem_flatMap, List.mem_map] at h
  obtain ⟨bn, hbn, qc, _, c, _, rfl⟩ := h
  exact List.mem_map.mpr ⟨bn, hbn, rfl⟩

theorem countP_outPairs_fst (md : ModuleData) (k : String)
    (hkeys : (md.map Prod.fst).Nodup) :
    (outPairs md).countP (fun t => t.1 == k) = outDegree md k := by
  induction md with
  | nil => simp [outPairs, outDegree, getKey]
  | cons kv rest ih =>
    rw [List.map_cons, List.nodup_cons] at hkeys
    unfold outPairs outDegree
    simp only [List.flatMap_cons, List.countP_append]
    by_cases hx : kv.1 = k
    · have hrest : (outPairs rest).countP (fun t => t.1 == k) = 0 := by
        refine List.countP_eq_zero.mpr ?_
        intro t' ht' hk
        have := fst_mem_keys_of_mem_outPairs rest t' ht'
        rw [beq_iff_eq] at hk
        exact hkeys.1 (hx ▸ hk ▸ this)
      have hhead : (kv.2.outputs.flatMap (fun pc => pc.2.map (fun c =>
          ((kv.1, pc.1, c.node, c.output) : Tup)))).countP (fun t => t.1 == k) =
            (kv.2.outputs.map (fun pc => pc.2.length)).sum := by
        have hall : List.countP (fun t => t.1 == k)
            (kv.2.outputs.flatMap (fun pc => pc.2.map (fun c =>
              ((kv.1, pc.1, c.node, c.output) : Tup)))) =
            (kv.2.outputs.flatMap (fun pc => pc.2.map (fun c =>
              ((kv.1, pc.1, c.node, c.output) : Tup)))).length := by
          refine List.countP_eq_length.mpr ?_
          intro t' ht'
          simp only [List.mem_flatMap, List.mem_map] at ht'
          obtain ⟨pc, _, c, _, rfl⟩ := ht'
          simpa using hx
        rw [hall]
        exact len_outFlat kv.1 kv.2.outputs
      unfold outPairs at hrest
      rw [hrest, hhead]
      simp only [getKey]
      rw [if_pos (by simpa using hx)]
      simp
    · have hhead : (kv.2.outputs.flatMap (fun pc => pc.2.map (fun c =>
          ((kv.1, pc.1, c.node, c.output) : Tup)))).countP (fun t => t.1 == k) = 0 := by
        refine List.countP_eq_zero.mpr ?_
        intro t' ht' hk
        simp only [List.mem_flatMap, List.mem_map] at ht'
        obtain ⟨pc, _, c, _, rfl⟩ := ht'
        rw [beq_iff_eq] at hk
        exact hx hk
      rw [hhead]
      simp only [getKey]
      rw [if_neg (by simpa using hx)]
      have := ih hkeys.2
      unfold outPairs outDegree at this
      omega

theorem countP_inPairs_trd (md : ModuleData) (k : String)
    (hkeys : (md.map Prod.fst).Nodup) :
    (inPairs md).countP (fun t => t.2.2.1 == k) = inDegree md k := by
  induction md with
  | nil => simp [inPairs, inDegree, getKey]
  | cons kv rest ih =>
    rw [List.map_cons, List.nodup_cons] at hkeys
    unfold inPairs inDegree
    simp only [List.flatMap_cons, List.countP_append]
    by_cases hx : kv.1 = k
    · have hrest : (inPairs rest).countP (fun t => t.2.2.1 == k) = 0 := by
        refine List.countP_eq_zero.mpr ?_
        intro t' ht' hk
        have := trd_mem_keys_of_mem_inPairs rest t' ht'
        rw [beq_iff_eq] at hk
        exact hkeys.1 (hx ▸ hk ▸ this)
      have hhead : (kv.2.inputs.flatMap (fun qc => qc.2.map (fun c =>
          ((c.node, c.input, kv.1, qc.1) : Tup)))).countP (fun t => t.2.2.1 == k) =
            (kv.2.inputs.map (fun qc => qc.2.length)).sum := by
        have hall : List.countP (fun t => t.2.2.1 == k)
            (kv.2.inputs.flatMap (fun qc => qc.2.map (fun c =>
              ((c.node, c.input, kv.1, qc.1) : Tup)))) =
            (kv.2.inputs.flatMap (fun qc => qc.2.map (fun c =>
              ((c.node, c.input, kv.1, qc.1) : Tup)))).length := by
          refine List.countP_eq_length.mpr ?_
          intro t' ht'
          simp only [List.mem_flatMap, List.mem_map] at ht'
          obtain ⟨qc, _, c, _, rfl⟩ := ht'
          simpa using hx
        rw [hall]
        exact len_inFlat kv.1 kv.2.inputs
      unfold inPairs at hrest
      rw [hrest, hhead]
      simp only [getKey]
      rw [if_pos (by simpa using hx)]
      simp
    · have hhead : (kv.2.inputs.flatMap (fun qc => qc.2.map (fun c =>
          ((c.node, c.input, kv.1, qc.1) : Tup)))).countP (fun t => t.2.2.1 == k) = 0 := by
        refine List.countP_eq_zero.mpr ?_
        intro t' ht' hk
        simp only [List.mem_flatMap, List.mem_map] at ht'
        obtain ⟨qc, _, c, _, rfl⟩ := ht'
        rw [beq_iff_eq] at hk
        exact hx hk
      rw [hhead]
      simp only [getKey]
      rw [if_neg (by simpa using hx)]
      have := ih hkeys.2
      unfold inPairs inDegree at this
      omega

theorem modifyIn_ports (md : ModuleData) (x q : String) (f : List InConn → List InConn)
    (md' : ModuleData) (h : modifyIn md x q f = some md') :
    (∀ y, portsIn md' y = portsIn md y) ∧ (∀ y, portsOut md' y = portsOut md y) := by
  unfold modifyIn at h
  rw [Option.bind_eq_bind] at h
  obtain ⟨n, hn, h⟩ := Option.bind_eq_some.mp h
  rw [Option.bind_eq_bind] at h
  obtain ⟨cs, hq, h⟩ := Option.bind_eq_some.mp h
  injection h with h
  subst h
  refine ⟨?_, ?_⟩
  · intro y
    rcases eq_or_ne y x with rfl | hy
    · simp only [portsIn, getKey_setKey_self, hn, Option.map_some]
      have : (setKey n.inputs q (f cs)).map Prod.fst = n.inputs.map Prod.fst :=
        setKey_map_fst n.inputs q (f cs) (by simp [hq])
      simp [this]
    · simp only [portsIn, getKey_setKey_ne md x y _ hy]
  · intro y
    rcases eq_or_ne y x with rfl | hy
    · simp only [portsOut, getKey_setKey_self, hn]
      rfl
    · simp only [portsOut, getKey_setKey_ne md x y _ hy]

theorem modifyOut_ports (md : ModuleData) (x q : String) (f : List OutConn → List OutConn)
    (md' : ModuleData) (h : modifyOut md x q f = some md') :
    (∀ y, portsIn md' y = portsIn md y) ∧ (∀ y, portsOut md' y = portsOut md y) := by
  unfold modifyOut at h
  rw [Option.bind_eq_bind] at h
  obtain ⟨n, hn, h⟩ := Option.bind_eq_some.mp h
  rw [Option.bind_eq_bind] at h
  obtain ⟨cs, hq, h⟩ := Option.bind_eq_some.mp h
  injection h with h
  subst h
  refine ⟨?_, ?_⟩
  · intro y
    rcases eq_or_ne y x with rfl | hy
    · simp only [portsIn, getKey_setKey_self, hn]
      rfl
    · simp only [portsIn, getKey_setKey_ne md x y _ hy]
  · intro y
    rcases eq_or_ne y x with rfl | hy
    · simp only [portsOut, getKey_setKey_self, hn, Option.map_some]
      have : (setKey n.outputs q (f cs)).map Prod.fst = n.outputs.map Prod.fst :=
        setKey_map_fst n.outputs q (f cs) (by simp [hq])
      simp [this]
    · simp only [portsOut, getKey_setKey_ne md x y _ hy]

theorem runEAct_ports (md : ModuleData) (a : EAct) (md' : ModuleData)
    (h : runEAct md a = some md') :
    (∀ y, portsIn md' y = portsIn md y) ∧ (∀ y, portsOut md' y = portsOut md y) := by
  cases a with
  | ain e => exact modifyIn_ports md e.in_id e.input_class _ md' h
  | aout e => exact modifyOut_ports md e.out_id e.output_class _ md' h

theorem runEActs_ports (acts : List EAct) : ∀ (md md' : ModuleData),
    runEActs md acts = some md' →
    (∀ y, portsIn md' y = portsIn md y) ∧ (∀ y, portsOut md' y = portsOut md y) := by
  induction acts with
  | nil =>
    intro md md' h
    cases h
    exact ⟨fun y => rfl, fun y => rfl⟩
  | cons a rest ih =>
    intro md md' h
    rw [runEActs, List.foldlM_cons] at h
    cases ha : runEAct md a with
    | none =>
      rw [ha] at h
      simp at h
    | some md1 =>
      rw [ha] at h
      obtain ⟨hi1, ho1⟩ := runEAct_ports md a md1 ha
      obtain ⟨hi2, ho2⟩ := ih md1 md' h
      exact ⟨fun y => (hi2 y).trans (hi1 y), fun y => (ho2 y).trans (ho1 y)⟩

theorem rmStepOut_eq (md : ModuleData) (e : ConnElem) :
    rmStepOut md e = runEActs md (outLoopActs e) := by
  unfold rmStepOut runEActs outLoopActs
  rw [List.foldlM_cons]
  simp only [runEAct]
  cases modifyIn md e.in_id e.input_class (spliceFindOrLast (inPredOut e)) with
  | none => rfl
  | some md1 =>
    show modifyOut md1 e.out_id e.output_class (spliceFindOrLast (outPredOut e)) =
      List.foldlM runEAct md1 [EAct.aout e]
    rw [List.foldlM_cons]
    simp only [runEAct]
    cases modifyOut md1 e.out_id e.output_class (spliceFindOrLast (outPredOut e)) with
    | none => rfl
    | some md2 => rfl

theorem rmStepIn_eq (md : ModuleData) (e : ConnElem) :
    rmStepIn md e = runEActs md (inLoopActs e) := by
  unfold rmStepIn runEActs inLoopActs
  rw [List.foldlM_cons]
  simp only [runEAct]
  cases modifyOut md e.out_id e.output_class (spliceFindOrLast (outPredOut e)) with
  | none => rfl
  | some md1 =>
    show modifyIn md1 e.in_id e.input_class (spliceFindOrLast (inPredOut e)) =
      List.foldlM runEAct md1 [EAct.ain e]
    rw [List.foldlM_cons]
    simp only [runEAct]
    cases modifyIn md1 e.in_id e.input_class (spliceFindOrLast (inPredOut e)) with
    | none => rfl
    | some md2 => rfl

theorem runEActs_append (l1 l2 : List EAct) : ∀ md : ModuleData,
    runEActs md (l1 ++ l2) = (runEActs md l1).bind (fun m => runEActs m l2) := by
  induction l1 with
  | nil =>
    intro md
    rfl
  | cons a l1 ih =>
    intro md
    show (a :: (l1 ++ l2)).foldlM runEAct md = ((a :: l1).foldlM runEAct md).bind _
    rw [List.foldlM_cons, List.foldlM_cons]
    cases runEAct md a with
    | none => rfl
    | some md1 => exact ih md1

theorem foldlM_eq_runEActs (step : ModuleData → ConnElem → Option ModuleData)
    (acts : ConnElem → List EAct)
    (hstep : ∀ md e, step md e = runEActs md (acts e)) (E : List ConnElem) :
    ∀ md : ModuleData, E.foldlM step md = runEActs md (E.flatMap acts) := by
  induction E with
  | nil =>
    intro md
    rfl
  | cons e E ih =>
    intro md
    rw [List.foldlM_cons, hstep, List.flatMap_cons, runEActs_append]
    cases runEActs md (acts e) with
    | none => rfl
    | some md1 => exact ih md1

theorem stepStore_eq (modName : String) (f : ModuleData → ConnElem → Option ModuleData)
    (store : Store) (e : ConnElem) (md : ModuleData)
    (hmd : getKey store modName = some md) :
    stepStore modName f store e = (f md e).map (fun md' => setKey store modName md') := by
  unfold stepStore
  rw [hmd]
  show (f md e).bind (fun md' => some (setKey store modName md')) = _
  cases f md e with
  | none => rfl
  | some md1 => rfl

theorem foldlM_stepStore (modName : String) (f : ModuleData → ConnElem → Option ModuleData)
    (E : List ConnElem) :
    ∀ (store : Store) (md : ModuleData), getKey store modName = some md →
      E.foldlM (stepStore modName f) store =
        (E.foldlM f md).map (fun md' => setKey store modName md') := by
  induction E with
  | nil =>
    intro store md hmd
    show some store = some (setKey store modName md)
    rw [setKey_eq_self store modName md hmd]
  | cons e E ih =>
    intro store md hmd
    rw [List.foldlM_cons, List.foldlM_cons, stepStore_eq modName f store e md hmd]
    cases hfe : f md e with
    | none => rfl
    | some md1 =>
      show E.foldlM (stepStore modName f) (setKey store modName md1) = _
      rw [ih (setKey store modName md1) md1 (getKey_setKey_self store modName md1)]
      show (E.foldlM f md1).map (fun md' => setKey (setKey store modName md1) modName md') =
        (E.foldlM f md1).map (fun md' => setKey store modName md')
      cases E.foldlM f md1 with
      | none => rfl
      | some md2 =>
        show some (setKey (setKey store modName md1) modName md2) =
          some (setKey store modName md2)
        rw [setKey_setKey]

theorem indep_of_tup_ne (e e' : ConnElem) (h : tupOf e ≠ tupOf e') :
    ∀ a b : EAct, (a = .ain e ∨ a = .aout e) → (b = .ain e' ∨ b = .aout e') →
      EActIndep a b := by
  intro a b ha hb
  rcases ha with rfl | rfl <;> rcases hb with rfl | rfl
  · intro hsame c hc
    by_contra hf
    rw [Bool.not_eq_false] at hf
    unfold inPredOut at hc hf
    rw [Bool.and_eq_true, beq_iff_eq, beq_iff_eq] at hc hf
    apply h
    unfold tupOf
    rw [← hc.1, ← hc.2, hf.1, hf.2, hsame.1, hsame.2]
  · trivial
  · trivial
  · intro hsame c hc
    by_contra hf
    rw [Bool.not_eq_false] at hf
    unfold outPredOut at hc hf
    rw [Bool.and_eq_true, beq_iff_eq, beq_iff_eq] at hc hf
    apply h
    unfold tupOf
    rw [hsame.1, hsame.2, ← hc.1, ← hc.2, hf.1, hf.2]

theorem mem_outLoopActs (e : ConnElem) (a : EAct) (ha : a ∈ outLoopActs e) :
    a = EAct.ain e ∨ a = EAct.aout e := by
  rcases List.mem_cons.mp ha with rfl | ha
  · exact Or.inl rfl
  · rw [List.mem_singleton] at ha
    exact Or.inr ha

theorem mem_inLoopActs (e : ConnElem) (a : EAct) (ha : a ∈ inLoopActs e) :
    a = EAct.ain e ∨ a = EAct.aout e := by
  rcases List.mem_cons.mp ha with rfl | ha
  · exact Or.inr rfl
  · rw [List.mem_singleton] at ha
    exact Or.inl ha

theorem outLoopActs_pairwise (e : ConnElem) : (outLoopActs e).Pairwise EActIndep := by
  unfold outLoopActs
  refine List.Pairwise.cons ?_ (List.pairwise_singleton _ _)
  intro b hb
  rw [List.mem_singleton] at hb
  subst hb
  trivial

theorem inLoopActs_pairwise (e : ConnElem) : (inLoopActs e).Pairwise EActIndep := by
  unfold inLoopActs
  refine List.Pairwise.cons ?_ (List.pairwise_singleton _ _)
  intro b hb
  rw [List.mem_singleton] at hb
  subst hb
  trivial

theorem pairwise_indep_blocks (l : List ConnElem) (f : ConnElem → List EAct)
    (hf : ∀ e, ∀ a ∈ f e, a = EAct.ain e ∨ a = EAct.aout e)
    (hl : l.Pairwise (fun e e' => tupOf e ≠ tupOf e'))
    (hblk : ∀ e ∈ l, (f e).Pairwise EActIndep) :
    (l.flatMap f).Pairwise EActIndep := by
  induction l with
  | nil => simp
  | cons e l ih =>
    rw [List.flatMap_cons]
    rcases List.pairwise_cons.mp hl with ⟨hhead, htail⟩
    refine List.pairwise_append.mpr
      ⟨hblk e (by simp), ih htail (fun e' he' => hblk e' (by simp [he'])), ?_⟩
    intro a ha b hb
    rw [List.mem_flatMap] at hb
    obtain ⟨e', he', hbe'⟩ := hb
    exact indep_of_tup_ne e e' (hhead e' he') a b (hf e a ha) (hf e' b hbe')

theorem pairwise_tupNe_of_filter (dom : List ConnElem) (hnd : (domTuples dom).Nodup)
    (p : ConnElem → Bool) :
    (dom.filter p).Pairwise (fun e e' => tupOf e ≠ tupOf e') := by
  have hsub : List.Sublist ((dom.filter p).map tupOf) (dom.map tupOf) :=
    (List.filter_sublist dom).map tupOf
  have hnd' : ((dom.filter p).map tupOf).Nodup := hnd.sublist hsub
  exact List.pairwise_map.mp hnd'

theorem mem_casActs (elemsOut elemsIn : List ConnElem) (a : EAct)
    (ha : a ∈ casActs elemsOut elemsIn) :
    ∃ e, (e ∈ elemsOut ∨ e ∈ elemsIn) ∧ (a = EAct.ain e ∨ a = EAct.aout e) := by
  unfold casActs at ha
  rcases List.mem_append.mp ha with h | h <;> rw [List.mem_flatMap] at h
  · obtain ⟨e, he, hae⟩ := h
    exact ⟨e, Or.inl (List.mem_reverse.mp he), mem_outLoopActs e a hae⟩
  · obtain ⟨e, he, hae⟩ := h
    exact ⟨e, Or.inr (List.mem_reverse.mp he), mem_inLoopActs e a hae⟩

theorem pairwise_casActs (md : ModuleData) (dom : List ConnElem) (k : String)
    (hwf : Wf md dom) :
    (casActs (dom.filter (fun e => e.out_id == k))
      (dom.filter (fun e => e.in_id == k))).Pairwise EActIndep := by
  obtain ⟨hkeys, hpin, hpout, hpair, hdom, hnd, hself⟩ := hwf
  have hndT : (domTuples dom).Nodup := hdom.nodup_iff.mpr hnd
  have hno : ∀ e ∈ dom, e.out_id = k → e.in_id = k → False := by
    intro e he h1 h2
    have hm : tupOf e ∈ outPairs md := hdom.mem_iff.mp (List.mem_map.mpr ⟨e, he, rfl⟩)
    refine hself (tupOf e) hm ?_
    show e.out_id = e.in_id
    rw [h1, h2]
  unfold casActs
  refine List.pairwise_append.mpr ⟨?_, ?_, ?_⟩
  · refine pairwise_indep_blocks _ _ mem_outLoopActs ?_ (fun e _ => outLoopActs_pairwise e)
    refine List.pairwise_reverse.mpr ?_
    exact (pairwise_tupNe_of_filter dom hndT _).imp (fun h => Ne.symm h)
  · refine pairwise_indep_blocks _ _ mem_inLoopActs ?_ (fun e _ => inLoopActs_pairwise e)
    refine List.pairwise_reverse.mpr ?_
    exact (pairwise_tupNe_of_filter dom hndT _).imp (fun h => Ne.symm h)
  · intro a ha b hb
    rw [List.mem_flatMap] at ha hb
    obtain ⟨e, he, hae⟩ := ha
    obtain ⟨e', he', hbe⟩ := hb
    rw [List.mem_reverse, List.mem_filter] at he he'
    have htne : tupOf e ≠ tupOf e' := by
      intro hte
      have h1 : e.out_id = k := by simpa using he.2
      have h2 : e'.in_id = k := by simpa using he'.2
      have h3 : e.in_id = e'.in_id := congrArg (fun t : Tup => t.2.2.1) hte
      exact hno e he.1 h1 (h3.trans h2)
    exact indep_of_tup_ne e e' htne a b (mem_outLoopActs e a hae) (mem_inLoopActs e' b hbe)

theorem act_pre (md : ModuleData) (dom : List ConnElem) (hwf : Wf md dom)
    (e : ConnElem) (he : e ∈ dom) :
    actOk md (.ain e) ∧ actCount md (.ain e) = 1 ∧
      actOk md (.aout e) ∧ actCount md (.aout e) = 1 := by
  obtain ⟨hkeys, hpin, hpout, hpair, hdom, hnd, hself⟩ := hwf
  have hmemT : tupOf e ∈ domTuples dom := List.mem_map.mpr ⟨e, he, rfl⟩
  have hndT : (domTuples dom).Nodup := hdom.nodup_iff.mpr hnd
  have h1 : tupCount (domTuples dom) (tupOf e) = 1 :=
    tupCount_eq_one_of_nodup_mem _ _ hndT hmemT
  have hout1 : tupCount (outPairs md) (tupOf e) = 1 := by
    rw [← tupCount_perm _ _ hdom]
    exact h1
  have hin1 : tupCount (inPairs md) (tupOf e) = 1 := by
    rw [← tupCount_perm _ _ hpair]
    exact hout1
  refine ⟨?_, ?_, ?_, ?_⟩
  · have hm : tupOf e ∈ inPairs md := mem_of_tupCount_pos _ _ (by omega)
    exact hasInPort_of_mem_inPairs md e.out_id e.output_class e.in_id e.input_class hkeys hpin hm
  · show (inList md e.in_id e.input_class).countP
      (fun c => c.node == e.out_id && c.input == e.output_class) = 1
    rw [countP_inList_eq_tupCount md hkeys hpin e.out_id e.output_class e.in_id e.input_class]
    exact hin1
  · have hm : tupOf e ∈ outPairs md := mem_of_tupCount_pos _ _ (by omega)
    exact hasOutPort_of_mem_outPairs md e.out_id e.output_class e.in_id e.input_class hkeys hpout hm
  · show (outList md e.out_id e.output_class).countP
      (fun c => c.node == e.in_id && c.output == e.input_class) = 1
    rw [countP_outList_eq_tupCount md hkeys hpout e.out_id e.output_class e.in_id e.input_class]
    exact hout1

/-- C5.  Deleting a node cascades: under the store and canvas invariants,
removeNodeId removes every connection element naming the node on either
side, emits exactly one connectionRemoved event per such record, out-degree
plus in-degree in total, before the final nodeRemoved event, deletes the
node record from its module, and leaves no surviving record or element of
the module referencing the node. -/
theorem claim_C5_cascade_delete (st : EditorState) (idArg k : String) (md : ModuleData)
    (hid : extractNodeId idArg = k)
    (hmd : getKey st.store st.module = some md)
    (hmod : getModuleFromNodeId st.store (.str k) = some st.module)
    (hwf : Wf md st.dom) :
    ∃ st' connEvs md',
      removeNodeId st idArg = .ok (st', connEvs ++ [Event.nodeRemoved k]) ∧
      connEvs.length = outDegree md k + inDegree md k ∧
      (∀ ev ∈ connEvs, ∃ a b oc ic, ev = Event.connectionRemoved (.str a) (.str b) oc ic) ∧
      getKey st'.store st.module = some md' ∧
      getKey md' k = none ∧
      (∀ kv ∈ md', kv.1 ≠ k ∧
        (∀ qc ∈ kv.2.inputs, ∀ c ∈ qc.2, c.node ≠ k) ∧
        (∀ pc ∈ kv.2.outputs, ∀ c ∈ pc.2, c.node ≠ k)) ∧
      (∀ e ∈ st'.dom, e.out_id ≠ k ∧ e.in_id ≠ k) := by
  have hok : ∀ a ∈ casActs (st.dom.filter (fun e => e.out_id == k))
      (st.dom.filter (fun e => e.in_id == k)), actOk md a := by
    intro a ha
    obtain ⟨e, hme, hshape⟩ := mem_casActs _ _ a ha
    have he : e ∈ st.dom := by
      rcases hme with h | h <;> exact (List.mem_filter.mp h).1
    obtain ⟨h1, h2, h3, h4⟩ := act_pre md st.dom hwf e he
    rcases hshape with rfl | rfl
    · exact h1
    · exact h3
  have hcnt : ∀ a ∈ casActs (st.dom.filter (fun e => e.out_id == k))
      (st.dom.filter (fun e => e.in_id == k)), actCount md a = 1 := by
    intro a ha
    obtain ⟨e, hme, hshape⟩ := mem_casActs _ _ a ha
    have he : e ∈ st.dom := by
      rcases hme with h | h <;> exact (List.mem_filter.mp h).1
    obtain ⟨h1, h2, h3, h4⟩ := act_pre md st.dom hwf e he
    rcases hshape with rfl | rfl
    · exact h2
    · exact h4
  have hind := pairwise_casActs md st.dom k hwf
  obtain ⟨mdMid, hrunAll, hz, hsubIn, hsubOut, huntIn, huntOut, hkeysMid, hokMid⟩ :=
    runEActs_spec (casActs (st.dom.filter (fun e => e.out_id == k))
      (st.dom.filter (fun e => e.in_id == k))) md hok hcnt hind
  obtain ⟨hkeys, hpin, hpout, hpair, hdom, hnd, hself⟩ := hwf
  obtain ⟨hpi, hpo⟩ := runEActs_ports _ md mdMid hrunAll
  have hsplit := runEActs_append ((st.dom.filter (fun e => e.out_id == k)).reverse.flatMap
    outLoopActs) ((st.dom.filter (fun e => e.in_id == k)).reverse.flatMap inLoopActs) md
  have hrunAll2 : runEActs md ((st.dom.filter (fun e => e.out_id == k)).reverse.flatMap
      outLoopActs ++ (st.dom.filter (fun e => e.in_id == k)).reverse.flatMap inLoopActs) =
      some mdMid := hrunAll
  rw [hrunAll2] at hsplit
  cases hA : runEActs md ((st.dom.filter (fun e => e.out_id == k)).reverse.flatMap
      outLoopActs) with
  | none =>
    rw [hA] at hsplit
    cases hsplit
  | some mdA =>
  rw [hA] at hsplit
  have hB : runEActs mdA ((st.dom.filter (fun e => e.in_id == k)).reverse.flatMap
      inLoopActs) = some mdMid := hsplit.symm
  have hfold1 : (st.dom.filter (fun e => e.out_id == k)).reverse.foldlM
      (stepStore st.module rmStepOut) st.store = some (setKey st.store st.module mdA) := by
    rw [foldlM_stepStore st.module rmStepOut _ st.store md hmd,
        foldlM_eq_runEActs rmStepOut outLoopActs rmStepOut_eq _ md, hA]
    rfl
  have hfold2 : (st.dom.filter (fun e => e.in_id == k)).reverse.foldlM
      (stepStore st.module rmStepIn) (setKey st.store st.module mdA) =
      some (setKey st.store st.module mdMid) := by
    rw [foldlM_stepStore st.module rmStepIn _ _ mdA (getKey_setKey_self st.store st.module mdA),
        foldlM_eq_runEActs rmStepIn inLoopActs rmStepIn_eq _ mdA, hB]
    show some (setKey (setKey st.store st.module mdA) st.module mdMid) = _
    rw [setKey_setKey]
  have hrcn : removeConnectionNodeId st (.str k) = .ok
      ({ st with store := setKey st.store st.module mdMid,
                 dom := st.dom.filter (fun e => !(e.out_id == k) && !(e.in_id == k)) },
       ((st.dom.filter (fun e => e.out_id == k)).reverse ++
        (st.dom.filter (fun e => e.in_id == k)).reverse).map (fun e =>
          .connectionRemoved (.str e.out_id) (.str e.in_id) e.output_class e.input_class)) := by
    simp only [removeConnectionNodeId, JsId.key]
    rw [hfold1]
    dsimp only
    rw [hfold2]
  have hndMidKeys : (mdMid.map Prod.fst).Nodup := by
    rw [hkeysMid]
    exact hkeys
  refine ⟨{ store := setKey (setKey st.store st.module mdMid) st.module (delKey mdMid k),
            module := st.module,
            dom := st.dom.filter (fun e => !(e.out_id == k) && !(e.in_id == k)),
            nodeId := st.nodeId },
          ((st.dom.filter (fun e => e.out_id == k)).reverse ++
            (st.dom.filter (fun e => e.in_id == k)).reverse).map (fun e =>
              Event.connectionRemoved (.str e.out_id) (.str e.in_id)
                e.output_class e.input_class),
          delKey mdMid k, ?_, ?_, ?_, ?_, ?_, ?_, ?_⟩
  · simp only [removeNodeId]
    rw [hid, hmod, hrcn]
    dsimp only
    rw [getKey_setKey_self]
  · show (((st.dom.filter (fun e => e.out_id == k)).reverse ++
        (st.dom.filter (fun e => e.in_id == k)).reverse).map (fun e =>
          Event.connectionRemoved (.str e.out_id) (.str e.in_id)
            e.output_class e.input_class)).length = _
    rw [List.length_map, List.length_append, List.length_reverse, List.length_reverse]
    have hlenOut : (st.dom.filter (fun e => e.out_id == k)).length = outDegree md k := by
      rw [← List.countP_eq_length_filter]
      have h1 : st.dom.countP (fun e => e.out_id == k) =
          (domTuples st.dom).countP (fun t => t.1 == k) := by
        unfold domTuples
        rw [List.countP_map]
        rfl
      rw [h1, hdom.countP_eq]
      exact countP_outPairs_fst md k hkeys
    have hlenIn : (st.dom.filter (fun e => e.in_id == k)).length = inDegree md k := by
      rw [← List.countP_eq_length_filter]
      have h1 : st.dom.countP (fun e => e.in_id == k) =
          (domTuples st.dom).countP (fun t => t.2.2.1 == k) := by
        unfold domTuples
        rw [List.countP_map]
        rfl
      rw [h1, hdom.countP_eq, hpair.countP_eq]
      exact countP_inPairs_trd md k hkeys
    rw [hlenOut, hlenIn]
  · intro ev hev
    rw [List.mem_map] at hev
    obtain ⟨e, _, rfl⟩ := hev
    exact ⟨e.out_id, e.in_id, e.output_class, e.input_class, rfl⟩
  · show getKey (setKey (setKey st.store st.module mdMid) st.module (delKey mdMid k))
      st.module = _
    rw [getKey_setKey_self]
  · exact getKey_delKey_self mdMid k hndMidKeys
  · intro kv hkv
    have hkvMid : kv ∈ mdMid := (delKey_sublist mdMid k).subset hkv
    have hgkv : getKey mdMid kv.1 = some kv.2 := mem_getKey mdMid kv.1 kv.2 hndMidKeys hkvMid
    refine ⟨?_, ?_, ?_⟩
    · intro he
      have hmm : k ∈ (delKey mdMid k).map Prod.fst := List.mem_map.mpr ⟨kv, hkv, he⟩
      exact (getKey_eq_none_iff _ k).mp (getKey_delKey_self mdMid k hndMidKeys) hmm
    · intro qc hqc c hc hck
      have hin_nodup : (kv.2.inputs.map Prod.fst).Nodup := by
        have h1 : portsIn mdMid kv.1 = some (kv.2.inputs.map Prod.fst) := by
          simp [portsIn, hgkv]
        rw [hpi kv.1] at h1
        unfold portsIn at h1
        cases hg0 : getKey md kv.1 with
        | none =>
          rw [hg0] at h1
          cases h1
        | some n0 =>
          rw [hg0] at h1
          injection h1 with h1
          rw [← h1]
          exact hpin (kv.1, n0) (getKey_mem md kv.1 n0 hg0)
      have hqck : getKey kv.2.inputs qc.1 = some qc.2 :=
        mem_getKey kv.2.inputs qc.1 qc.2 hin_nodup hqc
      have hcMid : c ∈ inList mdMid kv.1 qc.1 := by
        simp only [inList, hgkv, hqck, Option.getD_some]
        exact hc
      have hcOld : c ∈ inList md kv.1 qc.1 := (hsubIn kv.1 qc.1).subset hcMid
      have hpos : 0 < (inList md kv.1 qc.1).countP
          (fun c' => c'.node == k && c'.input == c.input) :=
        List.countP_pos.mpr ⟨c, hcOld, by simp [hck]⟩
      rw [countP_inList_eq_tupCount md hkeys hpin k c.input kv.1 qc.1] at hpos
      have hmemIn : ((k, c.input, kv.1, qc.1) : Tup) ∈ inPairs md :=
        mem_of_tupCount_pos _ _ hpos
      have hmemOut : ((k, c.input, kv.1, qc.1) : Tup) ∈ outPairs md :=
        hpair.mem_iff.mpr hmemIn
      have hmemDom : ((k, c.input, kv.1, qc.1) : Tup) ∈ domTuples st.dom :=
        hdom.mem_iff.mpr hmemOut
      obtain ⟨e, he, hte⟩ := List.mem_map.mp hmemDom
      have he1 : e.out_id = k := congrArg (fun t : Tup => t.1) hte
      have he2 : e.output_class = c.input := congrArg (fun t : Tup => t.2.1) hte
      have he3 : e.in_id = kv.1 := congrArg (fun t : Tup => t.2.2.1) hte
      have he4 : e.input_class = qc.1 := congrArg (fun t : Tup => t.2.2.2) hte
      have hact : EAct.ain e ∈ casActs (st.dom.filter (fun e => e.out_id == k))
          (st.dom.filter (fun e => e.in_id == k)) := by
        unfold casActs
        refine List.mem_append.mpr (Or.inl ?_)
        rw [List.mem_flatMap]
        refine ⟨e, List.mem_reverse.mpr (List.mem_filter.mpr ⟨he, by simp [he1]⟩), ?_⟩
        simp [outLoopActs]
      have hz0 := hz (EAct.ain e) hact
      have hz1 : (inList mdMid kv.1 qc.1).countP (inPredOut e) = 0 := by
        rw [← he3, ← he4]
        exact hz0
      have hmatch : inPredOut e c = true := by
        unfold inPredOut
        rw [he1, he2]
        simp [hck]
      have hposMid : 0 < (inList mdMid kv.1 qc.1).countP (inPredOut e) :=
        List.countP_pos.mpr ⟨c, hcMid, hmatch⟩
      omega
    · intro pc hpc c hc hck
      have hout_nodup : (kv.2.outputs.map Prod.fst).Nodup := by
        have h1 : portsOut mdMid kv.1 = some (kv.2.outputs.map Prod.fst) := by
          simp [portsOut, hgkv]
        rw [hpo kv.1] at h1
        unfold portsOut at h1
        cases hg0 : getKey md kv.1 with
        | none =>
          rw [hg0] at h1
          cases h1
        | some n0 =>
          rw [hg0] at h1
          injection h1 with h1
          rw [← h1]
          exact hpout (kv.1, n0) (getKey_mem md kv.1 n0 hg0)
      have hpck : getKey kv.2.outputs pc.1 = some pc.2 :=
        mem_getKey kv.2.outputs pc.1 pc.2 hout_nodup hpc
      have hcMid : c ∈ outList mdMid kv.1 pc.1 := by
        simp only [outList, hgkv, hpck, Option.getD_some]
        exact hc
      have hcOld : c ∈ outList md kv.1 pc.1 := (hsubOut kv.1 pc.1).subset hcMid
      have hpos : 0 < (outList md kv.1 pc.1).countP
          (fun c' => c'.node == k && c'.output == c.output) :=
        List.countP_pos.mpr ⟨c, hcOld, by simp [hck]⟩
      rw [countP_outList_eq_tupCount md hkeys hpout kv.1 pc.1 k c.output] at hpos
      have hmemOut : ((kv.1, pc.1, k, c.output) : Tup) ∈ outPairs md :=
        mem_of_tupCount_pos _ _ hpos
      have hmemDom : ((kv.1, pc.1, k, c.output) : Tup) ∈ domTuples st.dom :=
        hdom.mem_iff.mpr hmemOut
      obtain ⟨e, he, hte⟩ := List.mem_map.mp hmemDom
      have he1 : e.out_id = kv.1 := congrArg (fun t : Tup => t.1) hte
      have he2 : e.output_class = pc.1 := congrArg (fun t : Tup => t.2.1) hte
      have he3 : e.in_id = k := congrArg (fun t : Tup => t.2.2.1) hte
      have he4 : e.input_class = c.output := congrArg (fun t : Tup => t.2.2.2) hte
      have hact : EAct.aout e ∈ casActs (st.dom.filter (fun e => e.out_id == k))
          (st.dom.filter (fun e => e.in_id == k)) := by
        unfold casActs
        refine List.mem_append.mpr (Or.inr ?_)
        rw [List.mem_flatMap]
        refine ⟨e, List.mem_reverse.mpr (List.mem_filter.mpr ⟨he, by simp [he3]⟩), ?_⟩
        simp [inLoopActs]
      have hz0 := hz (EAct.aout e) hact
      have hz1 : (outList mdMid kv.1 pc.1).countP (outPredOut e) = 0 := by
        rw [← he1, ← he2]
        exact hz0
      have hmatch : outPredOut e c = true := by
        unfold outPredOut
        rw [he3, he4]
        simp [hck]
      have hposMid : 0 < (outList mdMid kv.1 pc.1).countP (outPredOut e) :=
        List.countP_pos.mpr ⟨c, hcMid, hmatch⟩
      omega
  · intro e he
    show e.out_id ≠ k ∧ e.in_id ≠ k
    have := (List.mem_filter.mp he).2
    constructor
    · intro h
      simp [h] at this
    · intro h
      simp [h] at this

/-- C5, witness at the two-node one-connection module: deleting node 1
removes the connection and the node, leaving node 2 clean. -/
theorem claim_C5_witness :
    ∃ st' connEvs md',
      removeNodeId c5State ("node-1") = .ok (st', connEvs ++ [Event.nodeRemoved ("1")]) ∧
      connEvs.length = outDegree c5Md ("1") + inDegree c5Md ("1") ∧
      (∀ ev ∈ connEvs, ∃ a b oc ic, ev = Event.connectionRemoved (.str a) (.str b) oc ic) ∧
      getKey st'.store c5State.module = some md' ∧
      getKey md' ("1") = none ∧
      (∀ kv ∈ md', kv.1 ≠ ("1") ∧
        (∀ qc ∈ kv.2.inputs, ∀ c ∈ qc.2, c.node ≠ ("1")) ∧
        (∀ pc ∈ kv.2.outputs, ∀ c ∈ pc.2, c.node ≠ ("1"))) ∧
      (∀ e ∈ st'.dom, e.out_id ≠ ("1") ∧ e.in_id ≠ ("1")) :=
  claim_C5_cascade_delete c5State ("node-1") ("1") c5Md (by decide) (by decide)
    (by decide) (by unfold Wf; decide)

end NodeForge
